import Mathlib

/-!
A verification development for the Open Terms Archive engine core
(git-backed record store and its orchestration pipeline).

Modelling conventions:
* JavaScript strings are modelled as `List Char`; the helper `str` turns a
  Lean string literal into that representation.
* JavaScript object parameters are modelled as structures whose fields are
  `Option`-valued: `none` models an absent (or `undefined`) key.
* JavaScript truthiness on the values relevant here is modelled by the
  `truthyS` / `truthyN` / `truthyB` helpers (an empty string is falsy, a
  `Date` object is always truthy, `undefined` is falsy).
* Asynchronous functions are modelled as pure functions; persistence
  side effects are modelled by returning the arguments that would have been
  handed to the storage collaborator.
-/

def str (s : String) : List Char := s.toList

deriving instance DecidableEq for Except

/-- JS truthiness of an optional string value (`undefined` and `''` are falsy). -/
def truthyS : Option (List Char) → Bool
  | none => false
  | some s => !s.isEmpty

/-- JS truthiness of an optional `Date` value (a `Date` object is always truthy). -/
def truthyN : Option Nat → Bool
  | none => false
  | some _ => true

/-- JS truthiness of an optional boolean value. -/
def truthyB : Option Bool → Bool
  | none => false
  | some b => b

/-!
## Recorder (src/src/archivist/recorder/index.js)

The `Recorder` class validates required fields and delegates saves to its
repositories.  A call's parameter object is modelled by `RecorderParams`,
which carries every key any caller in the repository supplies (the
orchestration pipeline passes `termsType`, `snapshotIds` and `extractOnly`;
the Recorder itself destructures `documentType`, `snapshotId` and
`isRefilter`).  Keys the destructuring does not mention are ignored, exactly
as in JavaScript.
-/

structure RecorderParams where
  serviceId : Option (List Char) := none
  documentType : Option (List Char) := none
  termsType : Option (List Char) := none
  documentId : Option (List Char) := none
  snapshotId : Option (List Char) := none
  snapshotIds : Option (List (List Char)) := none
  fetchDate : Option Nat := none
  mimeType : Option (List Char) := none
  content : Option (List Char) := none
  isRefilter : Option Bool := none
  extractOnly : Option Bool := none
deriving DecidableEq

/-- The plain object handed to `new Record({...})` by the Recorder
(`src/src/archivist/repositories/record.js` is not part of the sources;
modelled from the spec as a passive field carrier). -/
structure RecRecord where
  serviceId : Option (List Char)
  documentType : Option (List Char)
  snapshotId : Option (List Char) := none
  fetchDate : Option Nat
  mimeType : Option (List Char)
  content : Option (List Char)
  isRefilter : Option Bool := none
deriving DecidableEq

def serviceIdRequiredMsg : List Char := str "A service ID is required"

def documentTypeRequiredMsg : List Char := str "A document type is required"

def fetchDateRequiredMsg : List Char :=
  str "The fetch date of the snapshot is required to ensure data consistency"

def contentRequiredMsg : List Char := str "A document content is required"

def mimeTypeRequiredMsg : List Char :=
  str "A document mime type is required to ensure data consistency"

/-- The apostrophe character, used when modelling source strings that
contain one. -/
def apos : Char := Char.ofNat 39

/-- `A snapshot ID is required to ensure data consistency for <serviceId>'s
<documentType>` (recorder/index.js line 59). -/
def snapshotIdRequiredMsg (serviceId documentType : List Char) : List Char :=
  str "A snapshot ID is required to ensure data consistency for " ++ serviceId
    ++ [apos] ++ str "s " ++ documentType

/-- `Recorder.recordSnapshot` (recorder/index.js lines 25-47).  `save` models
`this.snapshotsRepository.save`; its result is returned unchanged. -/
def recordSnapshot {ρ : Type} (save : RecRecord → ρ) (p : RecorderParams) :
    Except (List Char) ρ :=
  if !truthyS p.serviceId then .error serviceIdRequiredMsg
  else if !truthyS p.documentType then .error documentTypeRequiredMsg
  else if !truthyN p.fetchDate then .error fetchDateRequiredMsg
  else if !truthyS p.content then .error contentRequiredMsg
  else if !truthyS p.mimeType then .error mimeTypeRequiredMsg
  else .ok (save { serviceId := p.serviceId, documentType := p.documentType,
                   fetchDate := p.fetchDate, mimeType := p.mimeType,
                   content := p.content })

/-- `Recorder.recordVersion` (recorder/index.js lines 49-75).  `save` models
`this.versionsRepository.save`. -/
def recordVersion {ρ : Type} (save : RecRecord → ρ) (p : RecorderParams) :
    Except (List Char) ρ :=
  if !truthyS p.serviceId then .error serviceIdRequiredMsg
  else if !truthyS p.documentType then .error documentTypeRequiredMsg
  else if !truthyS p.snapshotId then
    .error (snapshotIdRequiredMsg (p.serviceId.getD []) (p.documentType.getD []))
  else if !truthyN p.fetchDate then .error fetchDateRequiredMsg
  else if !truthyS p.content then .error contentRequiredMsg
  else if !truthyS p.mimeType then .error mimeTypeRequiredMsg
  else .ok (save { serviceId := p.serviceId, documentType := p.documentType,
                   snapshotId := p.snapshotId, fetchDate := p.fetchDate,
                   mimeType := p.mimeType, content := p.content,
                   isRefilter := p.isRefilter })

/-- `Recorder.recordRefilter` (recorder/index.js lines 77-79):
`recordVersion({ isRefilter: true, ...params })`.  Because the spread of
`params` comes second, a key present in `params` overrides the literal
`isRefilter: true`; the literal only fills in an absent key. -/
def recordRefilter {ρ : Type} (save : RecRecord → ρ) (p : RecorderParams) :
    Except (List Char) ρ :=
  recordVersion save
    { p with isRefilter := match p.isRefilter with
                           | some b => some b
                           | none => some true }

/-!
## Archivist (src/unnamed/part_001)

The orchestration pipeline.  External collaborators are passed in as
functions: `fetchFn` models `this.fetch` (one deterministic outcome per
document), `getLatest` models `this.recorder.getLatestSnapshot` keyed by the
optional document id (the service id and terms type are fixed within one
terms run), `extractFn` models `this.extract`.  Persistence effects are
modelled by returning the parameter objects handed to the recorder.
-/

/-- JS `Array.prototype.join(sep)`. -/
def joinSep (sep : List Char) : List (List Char) → List Char
  | [] => []
  | [x] => x
  | x :: y :: rest => x ++ sep ++ joinSep sep (y :: rest)

/-- Substring test, modelling JS `String.prototype.includes`. -/
def hasSubstr (s pat : List Char) : Bool :=
  s.tails.any (fun t => pat.isPrefixOf t)

/-- The outcome of fetching one document: success, a typed
`FetchDocumentError`, or any other error. -/
inductive FetchOutcome where
  | ok (mimeType content : List Char)
  | fetchErr (message : List Char)
  | otherErr (message : List Char)
deriving DecidableEq

/-- A fetch failure that `fetchTermsDocuments` rethrows (part_001 lines
156-167): every non-`FetchDocumentError`, and every `FetchDocumentError`
whose message contains `EAI_AGAIN`. -/
def hardMsgOf : FetchOutcome → Option (List Char)
  | .ok _ _ => none
  | .fetchErr m => if hasSubstr m (str "EAI_AGAIN") then some m else none
  | .otherErr m => some m

/-- A fetch failure recorded as a soft, aggregated inaccessible-content
failure (part_001 line 169): a `FetchDocumentError` without `EAI_AGAIN`. -/
def softMsgOf : FetchOutcome → Option (List Char)
  | .ok _ _ => none
  | .fetchErr m => if hasSubstr m (str "EAI_AGAIN") then none else some m
  | .otherErr _ => none

structure Document where
  id : List Char := []
  location : List Char := []
deriving DecidableEq

structure Terms where
  serviceId : List Char := []
  termsType : List Char := []
  documents : List Document := []
  isMultiDocument : Bool := false
deriving DecidableEq

/-- The object built for each fetched document (part_001 lines 148-155).
`documentId` is JS `isMultiDocument && documentId`; the falsy value produced
when `isMultiDocument` is false is modelled as `none`. -/
structure SnapshotParams where
  content : List Char := []
  mimeType : List Char := []
  serviceId : List Char := []
  termsType : List Char := []
  documentId : Option (List Char) := none
  fetchDate : Nat := 0
deriving DecidableEq

inductive ArchivistError where
  | inaccessibleContent (messages : List (List Char))
  | hard (message : List Char)
deriving DecidableEq

/-- `Archivist.fetchTermsDocuments` (part_001 lines 141-178).  All document
fetches run under one `Promise.all`: a hard failure rejects the whole call
(modelled as the first hard failure in document order; `Promise.all` rejects
with whichever rejection settles first, and soft failures never reject);
otherwise the collected soft-failure messages, if any, are thrown as one
aggregated `InaccessibleContentError`; otherwise the per-document snapshot
parameters are returned in document order.  `now` models `new Date()`. -/
def fetchTermsDocuments (fetchFn : Document → FetchOutcome) (terms : Terms)
    (now : Nat) : Except ArchivistError (List SnapshotParams) :=
  match terms.documents.findSome? (fun d => hardMsgOf (fetchFn d)) with
  | some m => .error (.hard m)
  | none =>
    let inaccessibleContentErrors :=
      terms.documents.filterMap (fun d => softMsgOf (fetchFn d))
    if inaccessibleContentErrors.isEmpty then
      .ok (terms.documents.map (fun d =>
        match fetchFn d with
        | .ok mt ct =>
          { content := ct, mimeType := mt, serviceId := terms.serviceId,
            termsType := terms.termsType,
            documentId := if terms.isMultiDocument then some d.id else none,
            fetchDate := now }
        | _ => {}))  -- unreachable: guarded by the two failure checks
    else .error (.inaccessibleContent inaccessibleContentErrors)

structure Snapshot where
  id : List Char := []
  content : List Char := []
  mimeType : List Char := []
  documentId : Option (List Char) := none
  fetchDate : Nat := 0
deriving DecidableEq

/-- `Archivist.getTermsSnapshots` (part_001 lines 180-182): the latest
snapshot of each document, in document declaration order, dropping
documents that have none (`.filter(Boolean)`). -/
def getTermsSnapshots (getLatest : Option (List Char) → Option Snapshot)
    (terms : Terms) : List Snapshot :=
  terms.documents.filterMap (fun d =>
    getLatest (if terms.isMultiDocument then some d.id else none))

/-- `Archivist.extractVersionContent` (part_001 lines 184-192): extract each
snapshot with its document's declaration (found by id when the snapshot
carries a truthy document id, else the first declared document) and join
the results with a blank line. -/
def extractVersionContent
    (extractFn : List Char → List Char → Option Document → List Char)
    (snapshots : List Snapshot) (documents : List Document) : List Char :=
  joinSep (str "\n\n") (snapshots.map (fun s =>
    extractFn s.content s.mimeType
      (if truthyS s.documentId then
         documents.find? (fun d => d.id == s.documentId.getD [])
       else documents.head?)))

/-- The parameter object `Archivist.trackTermsChanges` hands to
`Archivist.recordVersion` (part_001 lines 131-138). -/
structure VersionParams where
  content : List Char := []
  snapshotIds : List (List Char) := []
  serviceId : List Char := []
  termsType : List Char := []
  fetchDate : Nat := 0
  extractOnly : Option Bool := none
deriving DecidableEq

/-- The observable effects of one `Archivist.trackTermsChanges` run:
which snapshot saves were performed, which version record was requested,
and the error the run threw, if any. -/
structure TrackOutcome where
  snapshotsSaved : List SnapshotParams := []
  versionRecorded : Option VersionParams := none
  error : Option ArchivistError := none
deriving DecidableEq

/-- `Archivist.trackTermsChanges` (part_001 lines 116-139).  When not
extract-only it awaits `fetchTermsDocuments` in full before any snapshot
save, so a throw there leaves no snapshot saved; otherwise every fetched
document's snapshot is saved, the latest snapshots are loaded, and (when at
least one exists) a version is recorded from them, attributed to all their
ids and to the first one's fetch date. -/
def trackTermsChanges (fetchFn : Document → FetchOutcome)
    (getLatest : Option (List Char) → Option Snapshot)
    (extractFn : List Char → List Char → Option Document → List Char)
    (terms : Terms) (extractOnly : Option Bool) (now : Nat) : TrackOutcome :=
  match (if truthyB extractOnly then Except.ok []
         else fetchTermsDocuments fetchFn terms now) with
  | .error e => { snapshotsSaved := [], versionRecorded := none, error := some e }
  | .ok fetched =>
    let snapshots := getTermsSnapshots getLatest terms
    if snapshots.isEmpty then
      { snapshotsSaved := fetched, versionRecorded := none, error := none }
    else
      { snapshotsSaved := fetched,
        versionRecorded := some
          { content := extractVersionContent extractFn snapshots terms.documents,
            snapshotIds := snapshots.map (fun s => s.id),
            serviceId := terms.serviceId, termsType := terms.termsType,
            fetchDate := (snapshots.headD {}).fetchDate,
            extractOnly := extractOnly },
        error := none }

/-- part_001 line 16. -/
def MAX_PARALLEL_TERMS_TRACKS : Nat := 1

/-- part_001 line 17. -/
def MAX_PARALLEL_TERMS_TRACKS_WITH_EXTRACT_ONLY : Nat := 10

/-- The concurrency `Archivist.trackAllTermsChanges` assigns to the tracking
queue (part_001 line 106). -/
def trackingQueueConcurrency (extractOnly : Option Bool) : Nat :=
  if truthyB extractOnly then MAX_PARALLEL_TERMS_TRACKS_WITH_EXTRACT_ONLY
  else MAX_PARALLEL_TERMS_TRACKS

/-!
## Record codec (src/src/archivist/recorder/repositories/git/dataMapper.js)

Strings are `List Char`.  The JS regex `/\b[0-9a-f]{5,40}\b/g` used to
recover snapshot ids from a commit body is modelled by `hexTokens`: the
maximal word-character runs of the text, kept when they consist of
lowercase hexadecimal digits and have length between 5 and 40 (a `\b`
boundary exists exactly at the edges of a maximal word-character run).
-/

/-- JS word character (`\w` = `[A-Za-z0-9_]`). -/
def wordChar (c : Char) : Bool :=
  (decide ('A' ≤ c) && decide (c ≤ 'Z')) || (decide ('a' ≤ c) && decide (c ≤ 'z'))
    || (decide ('0' ≤ c) && decide (c ≤ '9')) || c == '_'

/-- Lowercase hexadecimal digit (`[0-9a-f]`). -/
def hexDigit (c : Char) : Bool :=
  (decide ('0' ≤ c) && decide (c ≤ '9')) || (decide ('a' ≤ c) && decide (c ≤ 'f'))

/-- Maximal word-character runs of a text, with explicit fuel so that the
definition is structurally recursive (the fuel is always at least the text
length where this is used). -/
def wordRunsF : Nat → List Char → List (List Char)
  | _, [] => []
  | 0, _ :: _ => []
  | n + 1, c :: cs =>
    if wordChar c then (c :: cs.takeWhile wordChar) :: wordRunsF n (cs.dropWhile wordChar)
    else wordRunsF n cs

def wordRuns (l : List Char) : List (List Char) := wordRunsF l.length l

/-- Whether a maximal word run is matched by `/\b[0-9a-f]{5,40}\b/`. -/
def isHexToken (t : List Char) : Bool :=
  t.all hexDigit && decide (5 ≤ t.length) && decide (t.length ≤ 40)

/-- All matches of `/\b[0-9a-f]{5,40}\b/g` over a text, in order. -/
def hexTokens (l : List Char) : List (List Char) := (wordRuns l).filter isHexToken

/-- JS `String.prototype.split(' #')`, specialised to the codec's fixed
two-character terms-type/document-id separator. -/
def splitTerms (acc : List Char) : List Char → List (List Char)
  | [] => [acc.reverse]
  | [c] => [(c :: acc).reverse]
  | c1 :: c2 :: rest =>
    if c1 == ' ' && c2 == '#' then acc.reverse :: splitTerms [] rest
    else splitTerms (c1 :: acc) (c2 :: rest)

/-- Whether the text contains the ` #` separator. -/
def hasTermsSep : List Char → Bool
  | c1 :: c2 :: rest => (c1 == ' ' && c2 == '#') || hasTermsSep (c2 :: rest)
  | _ => false

/-- JS `String.prototype.replace` with a string pattern: replaces the first
occurrence only. -/
def replaceFirst (s pat rep : List Char) : List Char :=
  match s with
  | [] => []
  | c :: cs =>
    if pat.isPrefixOf (c :: cs) then rep ++ (c :: cs).drop pat.length
    else c :: replaceFirst cs pat rep

/-- The body of a commit message: everything after the first blank line. -/
def bodyAfterSubject : List Char → List Char
  | c1 :: c2 :: rest =>
    if c1 == '\n' && c2 == '\n' then rest else bodyAfterSubject (c2 :: rest)
  | _ => []

/-- Node `path.basename(p)`: the part after the last slash. -/
def baseNameOf (p : List Char) : List Char :=
  (p.reverse.takeWhile (fun c => c != '/')).reverse

/-- Node `path.dirname(p)`: the part before the last slash, `.` when there
is none. -/
def dirnameOf (p : List Char) : List Char :=
  if p.contains '/' then ((p.reverse.dropWhile (fun c => c != '/')).drop 1).reverse
  else str "."

/-- Node `path.extname(p)`: the extension of the basename including its
dot; empty when there is no dot or the only dot is the leading character. -/
def extnameOf (p : List Char) : List Char :=
  let b := baseNameOf p
  let pre := b.reverse.takeWhile (fun c => c != '.')
  if pre.length = b.length then []
  else if pre.length + 1 = b.length then []
  else '.' :: pre.reverse

/-- Node `path.basename(p, ext)`: the basename with a nonempty proper
suffix `ext` removed. -/
def baseNameNoExt (p ext : List Char) : List Char :=
  let b := baseNameOf p
  if ext != [] && ext.isSuffixOf b && decide (ext.length < b.length) then
    b.take (b.length - ext.length)
  else b

/-- The `mime` npm package's extension lookup, restricted to the types this
development uses.  Line 7 of dataMapper.js (`mime.define`) pins the
extension for `text/markdown` to `md`. -/
def mimeGetExtension (m : List Char) : Option (List Char) :=
  if m == str "text/markdown" then some (str "md")
  else if m == str "text/html" then some (str "html")
  else if m == str "application/pdf" then some (str "pdf")
  else if m == str "text/plain" then some (str "txt")
  else none

/-- The inverse lookup of the same table. -/
def mimeTypeOfExtension (e : List Char) : Option (List Char) :=
  if e == str "md" then some (str "text/markdown")
  else if e == str "html" then some (str "text/html")
  else if e == str "pdf" then some (str "application/pdf")
  else if e == str "txt" then some (str "text/plain")
  else none

/-- `mime.getType(path)`: the type registered for the path's extension. -/
def mimeGetType (p : List Char) : Option (List Char) :=
  match extnameOf p with
  | [] => none
  | _ :: e => mimeTypeOfExtension e

/-- The domain `Record` consumed and produced by the codec
(`src/src/archivist/record.js` is not among the sources; modelled from the
spec: a passive carrier of the fields listed in the data model). -/
structure Record where
  id : List Char := []
  serviceId : List Char := []
  termsType : List Char := []
  documentId : Option (List Char) := none
  mimeType : Option (List Char) := none
  fetchDate : Nat := 0
  isFirstRecord : Bool := false
  isExtractOnly : Bool := false
  snapshotIds : List (List Char) := []
  content : List Char := []
deriving DecidableEq

/-- `COMMIT_MESSAGE_PREFIX.startTracking`. -/
def startTrackingTag : List Char := str "Initial record of"

/-- `COMMIT_MESSAGE_PREFIX.extractOnly`. -/
def extractOnlyTag : List Char := str "Apply technical or declaration upgrade on"

/-- `COMMIT_MESSAGE_PREFIX.update`. -/
def updateTag : List Char := str "Record new changes of"

/-- `COMMIT_MESSAGE_PREFIX.deprecated_startTracking`. -/
def deprecatedStartTrackingTag : List Char := str "Start tracking"

/-- `COMMIT_MESSAGE_PREFIX.deprecated_refilter`. -/
def deprecatedRefilterTag : List Char := str "Refilter"

def TERMS_TYPE_AND_DOCUMENT_ID_SEPARATOR : List Char := str " #"

def SNAPSHOT_ID_MARKER : List Char := str "%SNAPSHOT_ID"

def SINGLE_SNAPSHOT_HEADER : List Char :=
  str "This version was recorded after an extraction from the snapshot"

def MULTIPLE_SNAPSHOT_HEADER : List Char :=
  str "This version was recorded after an extraction and an assembling from the following snapshots from %NUMBER source documents:"

/-- `generateFileName` (dataMapper.js lines 78-80). -/
def generateFileName (termsType : List Char) (documentId : Option (List Char))
    (extension : List Char) : List Char :=
  termsType
    ++ (if truthyS documentId then
          TERMS_TYPE_AND_DOCUMENT_ID_SEPARATOR ++ documentId.getD []
        else [])
    ++ ('.' :: extension)

/-- `generateFilePath` (dataMapper.js lines 82-86): unknown mime types fall
back to the `*` wildcard extension; the separator is always `/`. -/
def generateFilePath (serviceId termsType : List Char)
    (documentId : Option (List Char)) (mimeType : Option (List Char)) : List Char :=
  let extension := (mimeType.bind mimeGetExtension).getD (str "*")
  serviceId ++ ('/' :: generateFileName termsType documentId extension)

structure Persisted where
  message : List Char
  content : List Char
  filePath : List Char
deriving DecidableEq

/-- The commit-message tag of `toPersistence` (dataMapper.js lines 28-30):
first-record takes priority over extract-only, which takes priority over
the plain update tag. -/
def encodeTag (record : Record) : List Char :=
  if record.isFirstRecord then startTrackingTag
  else if record.isExtractOnly then extractOnlyTag
  else updateTag

/-- The commit subject line (dataMapper.js line 32). -/
def encodeSubject (record : Record) : List Char :=
  encodeTag record ++ str " " ++ record.serviceId ++ str " " ++ record.termsType

/-- The optional `Document ID` block (dataMapper.js line 33). -/
def encodeDocMsg (record : Record) : List Char :=
  if truthyS record.documentId then
    str "Document ID " ++ record.documentId.getD [] ++ str "\n\n"
  else []

/-- The provenance block (dataMapper.js lines 36-40): singular template for
one snapshot id, plural header and one `- ` line per id for several, empty
otherwise. -/
def encodeSnapMsg (record : Record) (snapshotIdentiferTemplate : List Char) :
    List Char :=
  if record.snapshotIds.length == 1 then
    SINGLE_SNAPSHOT_HEADER ++ str " "
      ++ replaceFirst snapshotIdentiferTemplate SNAPSHOT_ID_MARKER
           (record.snapshotIds.headD [])
  else if 1 < record.snapshotIds.length then
    replaceFirst MULTIPLE_SNAPSHOT_HEADER (str "%NUMBER")
        (str (toString record.snapshotIds.length))
      ++ ('\n' :: joinSep (str "\n") (record.snapshotIds.map
            (fun snapshotId =>
              str "- " ++ replaceFirst snapshotIdentiferTemplate
                SNAPSHOT_ID_MARKER snapshotId)))
  else []

/-- `toPersistence` (dataMapper.js lines 25-49). -/
def toPersistence (record : Record) (snapshotIdentiferTemplate : List Char) :
    Persisted :=
  { message := encodeSubject record ++ str "\n\n" ++ encodeDocMsg record
      ++ str "\n\n" ++ encodeSnapMsg record snapshotIdentiferTemplate,
    content := record.content,
    filePath := generateFilePath record.serviceId record.termsType
      record.documentId record.mimeType }

/-- A stored change-unit as the git repository hands it to `toDomain`:
commit hash, date, full message, body (after the first blank line) and the
files touched by the diff. -/
structure Commit where
  hash : List Char := []
  date : Nat := 0
  message : List Char := []
  body : List Char := []
  diffFiles : List (List Char) := []
deriving DecidableEq

/-- The change-unit produced by committing an encoded record as its single
modified file. -/
def commitOf (hash : List Char) (date : Nat) (p : Persisted) : Commit :=
  { hash := hash, date := date, message := p.message,
    body := bodyAfterSubject p.message, diffFiles := [p.filePath] }

inductive DecodeError where
  | integrity (message : List Char)
  | noFile
deriving DecidableEq

/-- The store-integrity error message of dataMapper.js line 57. -/
def integrityMsg (hash : List Char) (files : List (List Char)) : List Char :=
  str "Only one file should have been recorded in " ++ hash
    ++ str ", but all these files were recorded: "
    ++ joinSep (str ", ") files

/-- `toDomain` (dataMapper.js lines 51-76). -/
def toDomain (commit : Commit) : Except DecodeError Record :=
  if 1 < commit.diffFiles.length then
    .error (.integrity (integrityMsg commit.hash commit.diffFiles))
  else
    match commit.diffFiles with
    | [] => .error .noFile
    | relativeFilePath :: _ =>
      let ext := extnameOf relativeFilePath
      let parts := splitTerms [] (baseNameNoExt relativeFilePath ext)
      .ok { id := commit.hash,
            serviceId := dirnameOf relativeFilePath,
            termsType := parts.headD [],
            documentId := parts[1]?,
            mimeType := mimeGetType relativeFilePath,
            fetchDate := commit.date,
            isFirstRecord := startTrackingTag.isPrefixOf commit.message
              || deprecatedStartTrackingTag.isPrefixOf commit.message,
            isExtractOnly := extractOnlyTag.isPrefixOf commit.message
              || deprecatedRefilterTag.isPrefixOf commit.message,
            snapshotIds := hexTokens commit.body }

/-!
## Validity for the encode/decode round trip

`ValidRecord` collects the well-formedness conditions under which the spec
asserts the round trip (identifiers that survive the path syntax, a known
mime type, snapshot ids that the body regex can recover, and a document
count whose decimal rendering is not itself mistaken for a snapshot id).
`validTemplateParts` constrains the store's snapshot-identifier template,
written as the text around its single `%SNAPSHOT_ID` marker: no marker
character in the part before it, no hexadecimal tokens of its own, and no
word character adjacent to the embedded id (so the id keeps its regex word
boundaries).
-/

/-- A lineage reference the body regex `/\b[0-9a-f]{5,40}\b/g` can recover:
lowercase hexadecimal, between 5 and 40 characters (e.g. a git hash). -/
def validSnapshotId (i : List Char) : Prop :=
  i.all hexDigit = true ∧ 5 ≤ i.length ∧ i.length ≤ 40

instance (i : List Char) : Decidable (validSnapshotId i) :=
  inferInstanceAs (Decidable (i.all hexDigit = true ∧ 5 ≤ i.length ∧ i.length ≤ 40))

/-- The mime types this development registers in its model of the `mime`
package. -/
def knownMimeTypes : List (List Char) :=
  [str "text/markdown", str "text/html", str "application/pdf", str "text/plain"]

def ValidRecord (r : Record) : Prop :=
  r.serviceId ≠ [] ∧ ('/' : Char) ∉ r.serviceId ∧ ('\n' : Char) ∉ r.serviceId
    ∧ r.termsType ≠ [] ∧ ('/' : Char) ∉ r.termsType ∧ ('.' : Char) ∉ r.termsType
    ∧ ('\n' : Char) ∉ r.termsType ∧ hasTermsSep r.termsType = false
    ∧ (∀ d, r.documentId = some d → d ≠ [] ∧ ('/' : Char) ∉ d ∧ ('.' : Char) ∉ d
        ∧ hasTermsSep d = false ∧ hexTokens d = [])
    ∧ (∃ m, r.mimeType = some m ∧ m ∈ knownMimeTypes)
    ∧ (∀ i ∈ r.snapshotIds, validSnapshotId i)
    ∧ hexTokens (str (toString r.snapshotIds.length)) = []

def validTemplateParts (tpre tpost : List Char) : Prop :=
  ('%' : Char) ∉ tpre
    ∧ hexTokens tpre = [] ∧ hexTokens tpost = []
    ∧ (∀ c, tpre.getLast? = some c → wordChar c = false)
    ∧ (∀ c, tpost.head? = some c → wordChar c = false)

/-!
## Concrete example inputs used by witnesses and counterexamples
-/

/-- A valid multi-document version record that is marked both first-record
and extract-only. -/
def recordBothFlags : Record :=
  { serviceId := str "ServiceA", termsType := str "Terms of Service",
    documentId := none, mimeType := some (str "text/markdown"), fetchDate := 5,
    isFirstRecord := true, isExtractOnly := true,
    snapshotIds := [str "abc12"], content := str "body" }

/-- A valid multi-document version record (first-record only). -/
def recordGood : Record :=
  { serviceId := str "ServiceA", termsType := str "Terms of Service",
    documentId := some (str "community"), mimeType := some (str "text/markdown"),
    fetchDate := 5, isFirstRecord := false, isExtractOnly := false,
    snapshotIds := [str "abc12", str "de34f"], content := str "body" }

/-- The part of a snapshot-identifier template before `%SNAPSHOT_ID`. -/
def tplPre : List Char := str "commit/"

/-- The part of a snapshot-identifier template after `%SNAPSHOT_ID`. -/
def tplPost : List Char := str ".html"

/-- Parameters with all five of the Recorder's required snapshot fields
present and non-empty. -/
def snapshotParamsGood : RecorderParams :=
  { serviceId := some (str "ServiceA"), documentType := some (str "Terms of Service"),
    fetchDate := some 1, mimeType := some (str "text/html"),
    content := some (str "content") }

/-- Parameters with all five required snapshot fields present, but with the
empty string as content. -/
def snapshotParamsEmptyContent : RecorderParams :=
  { serviceId := some (str "ServiceA"), documentType := some (str "Terms of Service"),
    fetchDate := some 1, mimeType := some (str "text/html"), content := some [] }

/-- The parameter shape the orchestration pipeline supplies to
`recordVersion` for a multi-document terms, completed with the
`documentType` the Recorder requires: a non-empty set-valued `snapshotIds`
and no singular `snapshotId`. -/
def versionParamsSetLineage : RecorderParams :=
  { serviceId := some (str "ServiceA"), documentType := some (str "Terms of Service"),
    snapshotIds := some [str "abc12", str "de34f"], fetchDate := some 1,
    mimeType := some (str "text/markdown"), content := some (str "content") }

/-- Version parameters carrying an explicit `isRefilter: false`. -/
def versionParamsRefilterFalse : RecorderParams :=
  { serviceId := some (str "ServiceA"), documentType := some (str "Terms of Service"),
    snapshotId := some (str "abc12"), fetchDate := some 1,
    mimeType := some (str "text/html"), content := some (str "content"),
    isRefilter := some false }

/-- Version parameters with every field the Recorder requires present,
`isRefilter` absent. -/
def versionParamsGood : RecorderParams :=
  { serviceId := some (str "ServiceA"), documentType := some (str "Terms of Service"),
    snapshotId := some (str "abc12"), fetchDate := some 1,
    mimeType := some (str "text/html"), content := some (str "content") }

/-- A decoded change-unit that touched two files. -/
def commitTwoFiles : Commit :=
  { hash := str "deadbeef01", date := 3, message := str "Record new changes of a b",
    body := [], diffFiles := [str "a/b.md", str "a/c.md"] }

/-- A decoded change-unit that touched exactly one file. -/
def commitOneFile : Commit :=
  { hash := str "deadbeef02", date := 3, message := str "Record new changes of a b",
    body := [], diffFiles := [str "a/b.md"] }

/-- First document of a two-document terms. -/
def docA : Document := { id := str "A", location := str "https://a.example/terms" }

/-- Second document of a two-document terms. -/
def docB : Document := { id := str "B", location := str "https://b.example/terms" }

/-- A two-document terms. -/
def termsAB : Terms :=
  { serviceId := str "ServiceA", termsType := str "Terms of Service",
    documents := [docA, docB], isMultiDocument := true }

/-- Fetch outcomes where document A succeeds and document B fails with a
content-inaccessibility condition. -/
def fetchSoftB : Document → FetchOutcome := fun d =>
  if d.id == str "A" then .ok (str "text/html") (str "contentA")
  else .fetchErr (str "Received HTTP code 403 when trying to fetch the page")

/-- Fetch outcomes where document A succeeds and document B fails with a
transient name-resolution failure (`EAI_AGAIN`), which is rethrown. -/
def fetchHardB : Document → FetchOutcome := fun d =>
  if d.id == str "A" then .ok (str "text/html") (str "contentA")
  else .fetchErr (str "request to https://b.example/terms failed, reason: getaddrinfo EAI_AGAIN b.example")

/-- Fetch outcomes where both documents succeed. -/
def fetchBothOk : Document → FetchOutcome := fun d =>
  if d.id == str "A" then .ok (str "text/html") (str "rawA")
  else .ok (str "text/html") (str "rawB")

/-- The stored snapshot of document A. -/
def snapA : Snapshot :=
  { id := str "abc12", content := str "rawA", mimeType := str "text/html",
    documentId := some (str "A"), fetchDate := 11 }

/-- The stored snapshot of document B. -/
def snapB : Snapshot :=
  { id := str "de34f", content := str "rawB", mimeType := str "text/html",
    documentId := some (str "B"), fetchDate := 22 }

/-- A snapshots repository holding the latest snapshots of A and B. -/
def getLatestAB : Option (List Char) → Option Snapshot := fun o =>
  if o == some (str "A") then some snapA
  else if o == some (str "B") then some snapB
  else none

/-- An extraction collaborator producing `foo` from A's raw content and
`bar` from anything else. -/
def extractFooBar : List Char → List Char → Option Document → List Char :=
  fun c _ _ => if c == str "rawA" then str "foo" else str "bar"

/-!
## Claims about the Recorder
-/

/-- Claim C5 counterexample: all five required fields of `recordSnapshot`
are present (`content` is the present-but-empty string), yet the call fails
with the missing-content validation error, so "fails iff a field is
missing" is false as stated. -/
theorem recordSnapshot_emptyContent_rejected :
    recordSnapshot (fun r => r) snapshotParamsEmptyContent
        = .error contentRequiredMsg
      ∧ snapshotParamsEmptyContent.content ≠ none
      ∧ snapshotParamsEmptyContent.serviceId ≠ none
      ∧ snapshotParamsEmptyContent.documentType ≠ none
      ∧ snapshotParamsEmptyContent.fetchDate ≠ none
      ∧ snapshotParamsEmptyContent.mimeType ≠ none := by
  decide

/-- Claim C5 (amended): `recordSnapshot` fails with a validation error iff
at least one of `serviceId`, `documentType` (the spec's `termsType`),
`fetchDate`, `content`, `mimeType` is missing or empty (JS-falsy); when all
five are present and non-empty it delegates the save to the snapshots
repository and returns its result. -/
theorem recordSnapshot_validation {ρ : Type} (save : RecRecord → ρ)
    (p : RecorderParams) :
    ((∃ e, recordSnapshot save p = .error e) ↔
        (truthyS p.serviceId = false ∨ truthyS p.documentType = false
          ∨ truthyN p.fetchDate = false ∨ truthyS p.content = false
          ∨ truthyS p.mimeType = false))
    ∧ (truthyS p.serviceId = true → truthyS p.documentType = true →
       truthyN p.fetchDate = true → truthyS p.content = true →
       truthyS p.mimeType = true →
        recordSnapshot save p
          = .ok (save { serviceId := p.serviceId, documentType := p.documentType,
                        fetchDate := p.fetchDate, mimeType := p.mimeType,
                        content := p.content })) := by
  constructor
  · cases hs : truthyS p.serviceId <;> cases hd : truthyS p.documentType <;>
      cases hf : truthyN p.fetchDate <;> cases hc : truthyS p.content <;>
      cases hm : truthyS p.mimeType <;>
      simp [recordSnapshot, hs, hd, hf, hc, hm]
  · intro h1 h2 h3 h4 h5
    simp [recordSnapshot, h1, h2, h3, h4, h5]

theorem recordSnapshot_validation_witness :
    recordSnapshot (fun r => r) snapshotParamsGood
      = .ok { serviceId := snapshotParamsGood.serviceId,
              documentType := snapshotParamsGood.documentType,
              fetchDate := snapshotParamsGood.fetchDate,
              mimeType := snapshotParamsGood.mimeType,
              content := snapshotParamsGood.content } :=
  (recordSnapshot_validation (fun r => r) snapshotParamsGood).2
    (by decide) (by decide) (by decide) (by decide) (by decide)

/-- Claim C10: both record operations reject a present-but-empty `content`
with exactly the same validation outcome as an absent `content`, so no
empty-content record is ever handed to a repository. -/
theorem recordContent_empty_like_missing {ρ : Type} (save : RecRecord → ρ)
    (p : RecorderParams) :
    recordSnapshot save { p with content := some [] }
        = recordSnapshot save { p with content := none }
      ∧ recordVersion save { p with content := some [] }
        = recordVersion save { p with content := none }
      ∧ (∀ r, recordSnapshot save { p with content := some [] } ≠ .ok r)
      ∧ (∀ r, recordVersion save { p with content := some [] } ≠ .ok r) := by
  have hemp : truthyS (some ([] : List Char)) = false := rfl
  refine ⟨rfl, rfl, ?_, ?_⟩
  · intro r
    cases hs : truthyS p.serviceId <;> cases hd : truthyS p.documentType <;>
      cases hf : truthyN p.fetchDate <;>
      simp [recordSnapshot, hs, hd, hf, hemp]
  · intro r
    cases hs : truthyS p.serviceId <;> cases hd : truthyS p.documentType <;>
      cases hsn : truthyS p.snapshotId <;> cases hf : truthyN p.fetchDate <;>
      simp [recordVersion, hs, hd, hsn, hf, hemp]

/-- Claim C4 counterexample: a call carrying the non-empty set-valued
`snapshotIds` the pipeline supplies (and every other field the Recorder
requires) is rejected, and rejected precisely by the snapshot-lineage
check. -/
theorem recordVersion_setLineage_rejected :
    recordVersion (fun r => r) versionParamsSetLineage
        = .error (snapshotIdRequiredMsg (str "ServiceA") (str "Terms of Service"))
      ∧ versionParamsSetLineage.snapshotIds = some [str "abc12", str "de34f"] := by
  decide

/-- Claim C4 (amended): the lineage check of `recordVersion` reads only the
singular `snapshotId`: a falsy `snapshotId` is always rejected with a
validation error; with a truthy `snapshotId` and the other required fields
present the call is not rejected; and the set-valued `snapshotIds` field is
ignored entirely, so the pipeline's set-valued calls (no `snapshotId`) are
rejected by the lineage check whenever they pass the earlier checks. -/
theorem recordVersion_lineage {ρ : Type} (save : RecRecord → ρ)
    (p : RecorderParams) :
    (truthyS p.snapshotId = false → ∃ e, recordVersion save p = .error e)
    ∧ (truthyS p.serviceId = true → truthyS p.documentType = true →
       truthyS p.snapshotId = true → truthyN p.fetchDate = true →
       truthyS p.content = true → truthyS p.mimeType = true →
        recordVersion save p
          = .ok (save { serviceId := p.serviceId, documentType := p.documentType,
                        snapshotId := p.snapshotId, fetchDate := p.fetchDate,
                        mimeType := p.mimeType, content := p.content,
                        isRefilter := p.isRefilter }))
    ∧ (∀ ids, recordVersion save { p with snapshotIds := ids }
          = recordVersion save p)
    ∧ (p.snapshotId = none → truthyS p.serviceId = true →
       truthyS p.documentType = true →
        recordVersion save p
          = .error (snapshotIdRequiredMsg (p.serviceId.getD [])
              (p.documentType.getD []))) := by
  refine ⟨?_, ?_, ?_, ?_⟩
  · intro hsn
    cases hs : truthyS p.serviceId <;> cases hd : truthyS p.documentType <;>
      simp [recordVersion, hs, hd, hsn]
  · intro h1 h2 h3 h4 h5 h6
    simp [recordVersion, h1, h2, h3, h4, h5, h6]
  · intro ids; rfl
  · intro hsn h1 h2
    simp [recordVersion, hsn, h1, h2, show truthyS none = false from rfl]

theorem recordVersion_lineage_witness :
    (∃ e, recordVersion (fun r => r)
        { versionParamsGood with snapshotId := some [] } = .error e)
      ∧ recordVersion (fun r => r) versionParamsGood
          = .ok { serviceId := versionParamsGood.serviceId,
                  documentType := versionParamsGood.documentType,
                  snapshotId := versionParamsGood.snapshotId,
                  fetchDate := versionParamsGood.fetchDate,
                  mimeType := versionParamsGood.mimeType,
                  content := versionParamsGood.content,
                  isRefilter := versionParamsGood.isRefilter } :=
  ⟨(recordVersion_lineage (fun r => r)
      { versionParamsGood with snapshotId := some [] }).1 (by decide),
   (recordVersion_lineage (fun r => r) versionParamsGood).2.1
      (by decide) (by decide) (by decide) (by decide) (by decide) (by decide)⟩

/-- Claim C8 counterexample: `recordRefilter` does not force the
extract-only/refilter flag when the caller already supplies one — the
spread `...params` overrides the literal `isRefilter: true`, so a call with
`isRefilter: false` behaves differently from `recordVersion` with the flag
forced true. -/
theorem recordRefilter_not_forced :
    recordRefilter (fun r => r) versionParamsRefilterFalse
      ≠ recordVersion (fun r => r)
          { versionParamsRefilterFalse with isRefilter := some true } := by
  decide

/-- Claim C8 (amended): `recordRefilter(params)` equals `recordVersion`
with `isRefilter` defaulted to `true` only when `params` carries no
`isRefilter` key; a value carried by `params` wins, so in that case the
call behaves exactly like plain `recordVersion(params)`. -/
theorem recordRefilter_defaults_flag {ρ : Type} (save : RecRecord → ρ)
    (p : RecorderParams) :
    (p.isRefilter = none →
      recordRefilter save p = recordVersion save { p with isRefilter := some true })
    ∧ (∀ b, p.isRefilter = some b →
      recordRefilter save p = recordVersion save p) := by
  constructor
  · intro h
    unfold recordRefilter
    rw [h]
  · intro b h
    unfold recordRefilter
    rw [h]
    cases p
    simp only [RecorderParams.mk.injEq] at h ⊢
    simp_all

theorem recordRefilter_defaults_flag_witness :
    (recordRefilter (fun r => r) versionParamsGood
        = recordVersion (fun r => r) { versionParamsGood with isRefilter := some true })
      ∧ (recordRefilter (fun r => r) versionParamsRefilterFalse
        = recordVersion (fun r => r) versionParamsRefilterFalse) :=
  ⟨(recordRefilter_defaults_flag (fun r => r) versionParamsGood).1 (by decide),
   (recordRefilter_defaults_flag (fun r => r) versionParamsRefilterFalse).2
      false (by decide)⟩

/-- Claim C9: a batch scheduled with a truthy `extractOnly` sets the
tracking queue's concurrency to the higher fixed bound
`MAX_PARALLEL_TERMS_TRACKS_WITH_EXTRACT_ONLY = 10`; any batch with a falsy
`extractOnly` (it performs live fetches) runs at
`MAX_PARALLEL_TERMS_TRACKS = 1`. -/
theorem trackingQueueConcurrency_spec :
    (∀ o, truthyB o = true →
      trackingQueueConcurrency o = 10)
    ∧ (∀ o, truthyB o = false →
      trackingQueueConcurrency o = 1)
    ∧ MAX_PARALLEL_TERMS_TRACKS_WITH_EXTRACT_ONLY = 10
    ∧ MAX_PARALLEL_TERMS_TRACKS = 1 := by
  refine ⟨?_, ?_, rfl, rfl⟩ <;> intro o h <;>
    simp [trackingQueueConcurrency, h, MAX_PARALLEL_TERMS_TRACKS,
      MAX_PARALLEL_TERMS_TRACKS_WITH_EXTRACT_ONLY]

theorem trackingQueueConcurrency_spec_witness :
    trackingQueueConcurrency (some true) = 10
      ∧ trackingQueueConcurrency none = 1 :=
  ⟨trackingQueueConcurrency_spec.1 (some true) (by decide),
   trackingQueueConcurrency_spec.2.1 none (by decide)⟩

/-!
## Claims about the codec's integrity check and file paths
-/

/-- Claim C6: decoding a change-unit whose diff touched two or more files
fails with the store-integrity error, whose message names the commit hash;
decoding one that touched exactly one file never raises this error. -/
theorem toDomain_integrity (c : Commit) :
    (2 ≤ c.diffFiles.length →
      toDomain c = .error (.integrity (integrityMsg c.hash c.diffFiles))
      ∧ ∃ s t, integrityMsg c.hash c.diffFiles = s ++ c.hash ++ t)
    ∧ (c.diffFiles.length = 1 →
      ∀ m, toDomain c ≠ .error (.integrity m)) := by
  constructor
  · intro h
    have h1 : 1 < c.diffFiles.length := h
    refine ⟨?_, ?_⟩
    · unfold toDomain
      rw [if_pos h1]
    · exact ⟨str "Only one file should have been recorded in ",
        str ", but all these files were recorded: "
          ++ joinSep (str ", ") c.diffFiles,
        by simp [integrityMsg, List.append_assoc]⟩
  · intro h m
    obtain ⟨f, hf⟩ : ∃ f, c.diffFiles = [f] := by
      cases hd : c.diffFiles with
      | nil => rw [hd] at h; simp at h
      | cons f rest =>
        rw [hd] at h
        simp at h
        exact ⟨f, by rw [h]⟩
    unfold toDomain
    rw [hf]
    simp

theorem toDomain_integrity_witness :
    toDomain commitTwoFiles
        = .error (.integrity (integrityMsg (str "deadbeef01")
            [str "a/b.md", str "a/c.md"]))
      ∧ (∀ m, toDomain commitOneFile ≠ .error (.integrity m)) :=
  ⟨((toDomain_integrity commitTwoFiles).1 (by decide)).1,
   (toDomain_integrity commitOneFile).2 (by decide)⟩

/-- Claim C7: `generateFilePath` joins `serviceId`, `termsType`, the
optional ` #documentId` marker and the extension with `/` and `.`; the
extension is looked up from the mime type, is the `*` wildcard when the
mime type is unknown, and is exactly `md` for `text/markdown`. -/
theorem generateFilePath_spec (serviceId termsType d : List Char)
    (mimeType : Option (List Char)) (hd : d ≠ []) :
    generateFilePath serviceId termsType (some d) mimeType
        = serviceId ++ str "/" ++ termsType ++ str " #" ++ d ++ str "."
            ++ (mimeType.bind mimeGetExtension).getD (str "*")
      ∧ generateFilePath serviceId termsType none mimeType
        = serviceId ++ str "/" ++ termsType ++ str "."
            ++ (mimeType.bind mimeGetExtension).getD (str "*")
      ∧ (mimeType.bind mimeGetExtension = none →
          (mimeType.bind mimeGetExtension).getD (str "*") = str "*")
      ∧ mimeGetExtension (str "text/markdown") = some (str "md") := by
  have hde : truthyS (some d) = true := by
    cases d with
    | nil => exact absurd rfl hd
    | cons a l => rfl
  refine ⟨?_, ?_, ?_, by decide⟩
  · simp [generateFilePath, generateFileName, hde,
      TERMS_TYPE_AND_DOCUMENT_ID_SEPARATOR, str, List.append_assoc]
  · simp [generateFilePath, generateFileName, truthyS, str, List.append_assoc]
  · intro h
    rw [h]
    rfl

theorem generateFilePath_spec_witness :
    generateFilePath (str "ServiceA") (str "Terms of Service")
        (some (str "community")) (some (str "text/markdown"))
      = str "ServiceA" ++ str "/" ++ str "Terms of Service" ++ str " #"
          ++ str "community" ++ str "."
          ++ ((some (str "text/markdown")).bind mimeGetExtension).getD (str "*") :=
  (generateFilePath_spec (str "ServiceA") (str "Terms of Service")
    (str "community") (some (str "text/markdown")) (by decide)).1

/-!
## Claims about the orchestration pipeline
-/

theorem exists_of_findSome_eq_some {α β : Type} {f : α → Option β} :
    ∀ {l : List α} {m : β}, l.findSome? f = some m → ∃ x ∈ l, f x = some m := by
  intro l
  induction l with
  | nil => intro m h; simp [List.findSome?] at h
  | cons a t ih =>
    intro m h
    rw [List.findSome?_cons] at h
    cases hfa : f a with
    | some b =>
      rw [hfa] at h
      exact ⟨a, by simp, by rw [hfa]; exact h⟩
    | none =>
      rw [hfa] at h
      obtain ⟨x, hx, hfx⟩ := ih h
      exact ⟨x, by simp [hx], hfx⟩

/-- Claim C2 counterexample: with document A fetching successfully and
document B soft-failing, the run saves no snapshot at all (A's snapshot
save does not complete), while it does fail with the single aggregated
inaccessible-content error listing B's message. -/
theorem trackTermsChanges_abortsBeforeSave :
    trackTermsChanges fetchSoftB (fun _ => none) (fun c _ _ => c) termsAB none 3
      = { snapshotsSaved := [], versionRecorded := none,
          error := some (.inaccessibleContent
            [str "Received HTTP code 403 when trying to fetch the page"]) } := by
  rfl

/-- Claim C2 (amended): on a live (non-extract-only) run, if every fetch
failure is a content-inaccessibility condition and at least one occurred,
the run fails with one aggregated inaccessible-content error listing every
soft-failure message in document order, and aborts before any snapshot
save, so no snapshot (not even of a successfully fetched document) is
saved; if some fetch fails with a non-inaccessibility condition, that hard
failure is propagated instead, preempting the aggregate, again with no
snapshot saved. -/
theorem trackTermsChanges_fetch_failures
    (fetchFn : Document → FetchOutcome)
    (getLatest : Option (List Char) → Option Snapshot)
    (extractFn : List Char → List Char → Option Document → List Char)
    (terms : Terms) (extractOnly : Option Bool) (now : Nat)
    (hlive : truthyB extractOnly = false) :
    ((∀ d ∈ terms.documents, hardMsgOf (fetchFn d) = none) →
     terms.documents.filterMap (fun d => softMsgOf (fetchFn d)) ≠ [] →
      trackTermsChanges fetchFn getLatest extractFn terms extractOnly now
        = { snapshotsSaved := [], versionRecorded := none,
            error := some (.inaccessibleContent
              (terms.documents.filterMap (fun d => softMsgOf (fetchFn d)))) })
    ∧ ((∃ d ∈ terms.documents, hardMsgOf (fetchFn d) ≠ none) →
      ∃ m, (∃ d ∈ terms.documents, hardMsgOf (fetchFn d) = some m)
        ∧ trackTermsChanges fetchFn getLatest extractFn terms extractOnly now
          = { snapshotsSaved := [], versionRecorded := none,
              error := some (.hard m) }) := by
  constructor
  · intro hnohard hsoft
    have hh : terms.documents.findSome? (fun d => hardMsgOf (fetchFn d)) = none := by
      rw [List.findSome?_eq_none_iff]
      exact hnohard
    unfold trackTermsChanges
    rw [hlive]
    simp only [Bool.false_eq_true, if_false]
    unfold fetchTermsDocuments
    rw [hh]
    have hne : (terms.documents.filterMap (fun d => softMsgOf (fetchFn d))).isEmpty
        = false := by
      cases hS : terms.documents.filterMap (fun d => softMsgOf (fetchFn d)) with
      | nil => exact absurd hS hsoft
      | cons a t => rfl
    simp only [hne]
    rfl
  · rintro ⟨d, hd, hne⟩
    cases hfs : terms.documents.findSome? (fun d => hardMsgOf (fetchFn d)) with
    | none => exact absurd (List.findSome?_eq_none_iff.mp hfs d hd) hne
    | some m =>
      refine ⟨m, exists_of_findSome_eq_some hfs, ?_⟩
      unfold trackTermsChanges
      rw [hlive]
      simp only [Bool.false_eq_true, if_false]
      unfold fetchTermsDocuments
      rw [hfs]

theorem trackTermsChanges_fetch_failures_witness :
    ∃ m, (∃ d ∈ termsAB.documents, hardMsgOf (fetchHardB d) = some m)
      ∧ trackTermsChanges fetchHardB (fun _ => none) (fun c _ _ => c) termsAB none 3
        = { snapshotsSaved := [], versionRecorded := none,
            error := some (.hard m) } :=
  (trackTermsChanges_fetch_failures fetchHardB (fun _ => none) (fun c _ _ => c)
      termsAB none 3 rfl).2 ⟨docB, by decide, by decide⟩

theorem fetchTermsDocuments_all_ok (fetchFn : Document → FetchOutcome)
    (terms : Terms) (now : Nat)
    (h : ∀ d ∈ terms.documents, ∃ mt ct, fetchFn d = .ok mt ct) :
    ∃ ps, fetchTermsDocuments fetchFn terms now = .ok ps := by
  have hh : terms.documents.findSome? (fun d => hardMsgOf (fetchFn d)) = none := by
    rw [List.findSome?_eq_none_iff]
    intro d hd
    obtain ⟨mt, ct, hok⟩ := h d hd
    rw [hok]
    rfl
  have hs : terms.documents.filterMap (fun d => softMsgOf (fetchFn d)) = [] := by
    rw [List.filterMap_eq_nil_iff]
    intro d hd
    obtain ⟨mt, ct, hok⟩ := h d hd
    rw [hok]
    rfl
  refine ⟨terms.documents.map (fun d =>
    match fetchFn d with
    | .ok mt ct =>
      { content := ct, mimeType := mt, serviceId := terms.serviceId,
        termsType := terms.termsType,
        documentId := if terms.isMultiDocument then some d.id else none,
        fetchDate := now }
    | _ => {}), ?_⟩
  unfold fetchTermsDocuments
  rw [hh, hs]
  rfl

/-- Claim C3: in a multi-document terms run that reaches extraction, the
version handed to `recordVersion` concatenates the per-snapshot extraction
results (each snapshot paired with its declared document) in document
declaration order, joined by a blank line; its `snapshotIds` are all the
loaded snapshots' ids in that same order; and its `fetchDate` is the first
loaded snapshot's fetch date. -/
theorem trackTermsChanges_version_assembly
    (fetchFn : Document → FetchOutcome)
    (getLatest : Option (List Char) → Option Snapshot)
    (extractFn : List Char → List Char → Option Document → List Char)
    (terms : Terms) (extractOnly : Option Bool) (now : Nat)
    (_hmulti : terms.isMultiDocument = true)
    (hfetch : truthyB extractOnly = true
      ∨ ∀ d ∈ terms.documents, ∃ mt ct, fetchFn d = .ok mt ct)
    (hsnap : getTermsSnapshots getLatest terms ≠ []) :
    ∃ v, (trackTermsChanges fetchFn getLatest extractFn terms extractOnly now).versionRecorded
          = some v
      ∧ v.content = joinSep (str "\n\n")
          ((getTermsSnapshots getLatest terms).map (fun s =>
            extractFn s.content s.mimeType
              (if truthyS s.documentId then
                 terms.documents.find? (fun d => d.id == s.documentId.getD [])
               else terms.documents.head?)))
      ∧ v.snapshotIds = (getTermsSnapshots getLatest terms).map (fun s => s.id)
      ∧ v.fetchDate = ((getTermsSnapshots getLatest terms).headD {}).fetchDate := by
  have hne : (getTermsSnapshots getLatest terms).isEmpty = false := by
    cases hS : getTermsSnapshots getLatest terms with
    | nil => exact absurd hS hsnap
    | cons a t => rfl
  have step : ∃ fetched,
      (if truthyB extractOnly then Except.ok []
       else fetchTermsDocuments fetchFn terms now)
        = Except.ok (ε := ArchivistError) fetched := by
    cases hfetch with
    | inl he => rw [he]; exact ⟨[], rfl⟩
    | inr hok =>
      obtain ⟨ps, hps⟩ := fetchTermsDocuments_all_ok fetchFn terms now hok
      cases he : truthyB extractOnly with
      | true => exact ⟨[], rfl⟩
      | false => exact ⟨ps, by rw [if_neg (by simp [he]), hps]⟩
  obtain ⟨fetched, hfetched⟩ := step
  refine ⟨{ content := extractVersionContent extractFn
              (getTermsSnapshots getLatest terms) terms.documents,
            snapshotIds := (getTermsSnapshots getLatest terms).map (fun s => s.id),
            serviceId := terms.serviceId, termsType := terms.termsType,
            fetchDate := ((getTermsSnapshots getLatest terms).headD {}).fetchDate,
            extractOnly := extractOnly }, ?_, ?_, rfl, rfl⟩
  · unfold trackTermsChanges
    rw [hfetched]
    simp only [hne]
    rfl
  · unfold extractVersionContent
    rfl

theorem trackTermsChanges_version_assembly_witness :
    ∃ v, (trackTermsChanges fetchBothOk getLatestAB extractFooBar termsAB none 3).versionRecorded
          = some v
      ∧ v.content = joinSep (str "\n\n")
          ((getTermsSnapshots getLatestAB termsAB).map (fun s =>
            extractFooBar s.content s.mimeType
              (if truthyS s.documentId then
                 termsAB.documents.find? (fun d => d.id == s.documentId.getD [])
               else termsAB.documents.head?)))
      ∧ v.snapshotIds = (getTermsSnapshots getLatestAB termsAB).map (fun s => s.id)
      ∧ v.fetchDate = ((getTermsSnapshots getLatestAB termsAB).headD {}).fetchDate :=
  trackTermsChanges_version_assembly fetchBothOk getLatestAB extractFooBar
    termsAB none 3 (by decide)
    (Or.inr (by
      intro d hd
      simp [termsAB, docA, docB] at hd
      rcases hd with h | h <;> rw [h] <;> exact ⟨_, _, rfl⟩))
    (by decide)

/-- The two-document example of the spec: the assembled version content is
exactly `foo`, a blank line, `bar`, the snapshot ids are `abc12`, `de34f`
in declaration order, and the version is dated from the first snapshot. -/
theorem trackTermsChanges_fooBar_example :
    (trackTermsChanges fetchBothOk getLatestAB extractFooBar termsAB none 3).versionRecorded
      = some { content := str "foo\n\nbar",
               snapshotIds := [str "abc12", str "de34f"],
               serviceId := str "ServiceA", termsType := str "Terms of Service",
               fetchDate := 11, extractOnly := none } := by
  rfl

/-!
## Word-run machinery for the body regex

`\b[0-9a-f]{5,40}\b` matches exactly the maximal word-character runs that
are lowercase-hex and of the right length, so `hexTokens` distributes over
an append whenever the junction breaks a word run: when the right part
starts with a non-word character, or the left part ends with one.
-/

theorem length_dropWhile_self_le (p : Char → Bool) :
    ∀ l : List Char, (l.dropWhile p).length ≤ l.length := by
  intro l
  induction l with
  | nil => simp
  | cons c cs ih =>
    rw [List.dropWhile_cons]
    cases hp : p c with
    | true => simp only [if_pos rfl]; exact le_trans ih (Nat.le_succ _)
    | false => simp

theorem takeWhile_append_breakR (p : Char → Bool) (b : List Char)
    (hb : ∀ c, b.head? = some c → p c = false) :
    ∀ l : List Char, (l ++ b).takeWhile p = l.takeWhile p := by
  intro l
  induction l with
  | nil =>
    cases b with
    | nil => rfl
    | cons c t =>
      simp only [List.nil_append, List.takeWhile_cons, hb c rfl]
      rfl
  | cons c cs ih =>
    rw [List.cons_append, List.takeWhile_cons, List.takeWhile_cons]
    cases hp : p c <;> simp [ih]

theorem dropWhile_append_breakR (p : Char → Bool) (b : List Char)
    (hb : ∀ c, b.head? = some c → p c = false) :
    ∀ l : List Char, (l ++ b).dropWhile p = l.dropWhile p ++ b := by
  intro l
  induction l with
  | nil =>
    cases b with
    | nil => rfl
    | cons c t =>
      simp only [List.nil_append, List.dropWhile_cons, hb c rfl]
      rfl
  | cons c cs ih =>
    rw [List.cons_append, List.dropWhile_cons, List.dropWhile_cons]
    cases hp : p c <;> simp [ih]

theorem takeWhile_append_breakL (p : Char → Bool) (b : List Char) :
    ∀ l : List Char, l.all p = false → (l ++ b).takeWhile p = l.takeWhile p := by
  intro l
  induction l with
  | nil => intro h; simp at h
  | cons c cs ih =>
    intro h
    rw [List.cons_append, List.takeWhile_cons, List.takeWhile_cons]
    cases hp : p c with
    | false => simp
    | true =>
      have hcs : cs.all p = false := by
        rw [List.all_cons, hp, Bool.true_and] at h
        exact h
      simp [ih hcs]

theorem dropWhile_append_breakL (p : Char → Bool) (b : List Char) :
    ∀ l : List Char, l.all p = false → (l ++ b).dropWhile p = l.dropWhile p ++ b := by
  intro l
  induction l with
  | nil => intro h; simp at h
  | cons c cs ih =>
    intro h
    rw [List.cons_append, List.dropWhile_cons, List.dropWhile_cons]
    cases hp : p c with
    | false => simp
    | true =>
      have hcs : cs.all p = false := by
        rw [List.all_cons, hp, Bool.true_and] at h
        exact h
      simp [ih hcs]

theorem wordRunsF_fuel : ∀ (n m : Nat) (l : List Char), l.length ≤ n →
    l.length ≤ m → wordRunsF n l = wordRunsF m l := by
  intro n
  induction n with
  | zero =>
    intro m l h1 h2
    have : l = [] := List.length_eq_zero.mp (Nat.le_zero.mp h1)
    subst this
    cases m <;> rfl
  | succ n ih =>
    intro m l h1 h2
    cases l with
    | nil => cases m <;> rfl
    | cons c cs =>
      cases m with
      | zero => simp at h2
      | succ m =>
        have hn : cs.length ≤ n := Nat.le_of_succ_le_succ h1
        have hm : cs.length ≤ m := Nat.le_of_succ_le_succ h2
        show (if wordChar c
            then (c :: cs.takeWhile wordChar) :: wordRunsF n (cs.dropWhile wordChar)
            else wordRunsF n cs)
          = (if wordChar c
            then (c :: cs.takeWhile wordChar) :: wordRunsF m (cs.dropWhile wordChar)
            else wordRunsF m cs)
        rw [ih m (cs.dropWhile wordChar)
              (le_trans (length_dropWhile_self_le wordChar cs) hn)
              (le_trans (length_dropWhile_self_le wordChar cs) hm),
            ih m cs hn hm]

theorem wordRunsF_eq (n : Nat) (l : List Char) (h : l.length ≤ n) :
    wordRunsF n l = wordRuns l :=
  wordRunsF_fuel n l.length l h le_rfl

theorem wordRuns_cons (c : Char) (cs : List Char) :
    wordRuns (c :: cs) = if wordChar c
      then (c :: cs.takeWhile wordChar) :: wordRuns (cs.dropWhile wordChar)
      else wordRuns cs := by
  show (if wordChar c
      then (c :: cs.takeWhile wordChar)
        :: wordRunsF cs.length (cs.dropWhile wordChar)
      else wordRunsF cs.length cs) = _
  rw [wordRunsF_eq cs.length (cs.dropWhile wordChar)
    (length_dropWhile_self_le wordChar cs), wordRunsF_eq cs.length cs le_rfl]

theorem wordRuns_append_breakR_aux (b : List Char)
    (hb : ∀ c, b.head? = some c → wordChar c = false) :
    ∀ (n : Nat) (a : List Char), a.length ≤ n →
      wordRuns (a ++ b) = wordRuns a ++ wordRuns b := by
  intro n
  induction n with
  | zero =>
    intro a ha
    have : a = [] := List.length_eq_zero.mp (Nat.le_zero.mp ha)
    subst this
    rfl
  | succ n ih =>
    intro a ha
    cases a with
    | nil => rfl
    | cons c cs =>
      have hn : cs.length ≤ n := Nat.le_of_succ_le_succ ha
      rw [List.cons_append, wordRuns_cons, wordRuns_cons]
      cases hc : wordChar c with
      | false =>
        simp only [Bool.false_eq_true, if_false]
        exact ih cs hn
      | true =>
        rw [takeWhile_append_breakR wordChar b hb cs,
            dropWhile_append_breakR wordChar b hb cs,
            ih (cs.dropWhile wordChar)
              (le_trans (length_dropWhile_self_le wordChar cs) hn)]
        simp

theorem wordRuns_append_breakR (a b : List Char)
    (hb : ∀ c, b.head? = some c → wordChar c = false) :
    wordRuns (a ++ b) = wordRuns a ++ wordRuns b :=
  wordRuns_append_breakR_aux b hb a.length a le_rfl

theorem mem_of_getLast?_eq_some {l : List Char} {a : Char}
    (h : l.getLast? = some a) : a ∈ l := by
  induction l with
  | nil => simp [List.getLast?] at h
  | cons c cs ih =>
    cases cs with
    | nil =>
      simp [List.getLast?] at h
      simp [h]
    | cons d t =>
      rw [List.getLast?_cons_cons] at h
      exact List.mem_cons_of_mem c (ih h)

theorem getLast?_dropWhile (p : Char → Bool) :
    ∀ l : List Char, l.all p = false →
      (l.dropWhile p).getLast? = l.getLast? := by
  intro l
  induction l with
  | nil => intro h; simp at h
  | cons c cs ih =>
    intro h
    rw [List.dropWhile_cons]
    cases hp : p c with
    | false => simp
    | true =>
      have hcs : cs.all p = false := by
        rw [List.all_cons, hp, Bool.true_and] at h
        exact h
      have hcsne : cs ≠ [] := by
        intro hnil
        rw [hnil] at hcs
        simp at hcs
      show (List.dropWhile p cs).getLast? = (c :: cs).getLast?
      rw [ih hcs]
      cases cs with
      | nil => exact absurd rfl hcsne
      | cons d t => rw [List.getLast?_cons_cons]

theorem all_eq_false_of_getLast? {l : List Char} {a : Char}
    (h : l.getLast? = some a) (ha : wordChar a = false) :
    l.all wordChar = false := by
  cases hall : l.all wordChar with
  | false => rfl
  | true =>
    have := List.all_eq_true.mp hall a (mem_of_getLast?_eq_some h)
    rw [this] at ha
    exact absurd ha (by simp)

theorem wordRuns_append_breakL_aux :
    ∀ (n : Nat) (a b : List Char), a.length ≤ n →
      (∀ c, a.getLast? = some c → wordChar c = false) →
      wordRuns (a ++ b) = wordRuns a ++ wordRuns b := by
  intro n
  induction n with
  | zero =>
    intro a b ha _
    have : a = [] := List.length_eq_zero.mp (Nat.le_zero.mp ha)
    subst this
    rfl
  | succ n ih =>
    intro a b ha hlast
    cases a with
    | nil => rfl
    | cons c cs =>
      have hn : cs.length ≤ n := Nat.le_of_succ_le_succ ha
      rw [List.cons_append, wordRuns_cons, wordRuns_cons]
      cases hc : wordChar c with
      | false =>
        simp only [Bool.false_eq_true, if_false]
        cases cs with
        | nil => rfl
        | cons d t =>
          exact ih (d :: t) b hn (by
            intro x hx
            exact hlast x (by rw [List.getLast?_cons_cons]; exact hx))
      | true =>
        have hcsne : cs ≠ [] := by
          intro hnil
          subst hnil
          have := hlast c (by simp [List.getLast?])
          rw [hc] at this
          exact absurd this (by simp)
        have hlastcs : ∀ x, cs.getLast? = some x → wordChar x = false := by
          intro x hx
          apply hlast x
          cases cs with
          | nil => exact absurd rfl hcsne
          | cons d t => rw [List.getLast?_cons_cons]; exact hx
        obtain ⟨y, hy⟩ : ∃ y, cs.getLast? = some y :=
          Option.isSome_iff_exists.mp (List.getLast?_isSome.mpr hcsne)
        have hcsall : cs.all wordChar = false :=
          all_eq_false_of_getLast? hy (hlastcs y hy)
        rw [takeWhile_append_breakL wordChar b cs hcsall,
            dropWhile_append_breakL wordChar b cs hcsall,
            ih (cs.dropWhile wordChar) b
              (le_trans (length_dropWhile_self_le wordChar cs) hn)
              (by
                intro x hx
                rw [getLast?_dropWhile wordChar cs hcsall] at hx
                exact hlastcs x hx)]
        simp

theorem wordRuns_append_breakL (a b : List Char)
    (ha : ∀ c, a.getLast? = some c → wordChar c = false) :
    wordRuns (a ++ b) = wordRuns a ++ wordRuns b :=
  wordRuns_append_breakL_aux a.length a b le_rfl ha

theorem hexTokens_append_of_head (a b : List Char)
    (hb : ∀ c, b.head? = some c → wordChar c = false) :
    hexTokens (a ++ b) = hexTokens a ++ hexTokens b := by
  unfold hexTokens
  rw [wordRuns_append_breakR a b hb, List.filter_append]

theorem hexTokens_append_of_getLast (a b : List Char)
    (ha : ∀ c, a.getLast? = some c → wordChar c = false) :
    hexTokens (a ++ b) = hexTokens a ++ hexTokens b := by
  unfold hexTokens
  rw [wordRuns_append_breakL a b ha, List.filter_append]

theorem hexTokens_cons_nonword (c : Char) (l : List Char)
    (hc : wordChar c = false) : hexTokens (c :: l) = hexTokens l := by
  unfold hexTokens
  rw [wordRuns_cons, hc]
  simp

theorem hexDigit_wordChar {c : Char} (h : hexDigit c = true) :
    wordChar c = true := by
  unfold hexDigit at h
  unfold wordChar
  rw [Bool.or_eq_true] at h
  rcases h with h | h <;> rw [Bool.and_eq_true] at h <;>
    obtain ⟨h1, h2⟩ := h <;>
    rw [decide_eq_true_eq] at h1 h2
  · have : (decide ('0' ≤ c) && decide (c ≤ '9')) = true := by
      rw [Bool.and_eq_true]
      exact ⟨decide_eq_true h1, decide_eq_true h2⟩
    rw [this]
    simp
  · have : (decide ('a' ≤ c) && decide (c ≤ 'z')) = true := by
      rw [Bool.and_eq_true]
      exact ⟨decide_eq_true h1,
        decide_eq_true (le_trans h2 (by decide : ('f' : Char) ≤ 'z'))⟩
    rw [this]
    simp

theorem wordRuns_all_word (l : List Char) (h1 : l ≠ [])
    (h2 : l.all wordChar = true) : wordRuns l = [l] := by
  cases l with
  | nil => exact absurd rfl h1
  | cons c cs =>
    rw [List.all_cons, Bool.and_eq_true] at h2
    obtain ⟨hc, hcs⟩ := h2
    rw [wordRuns_cons, hc]
    simp only [if_pos rfl]
    rw [List.takeWhile_eq_self_iff.mpr (List.all_eq_true.mp hcs),
        List.dropWhile_eq_nil_iff.mpr (fun x hx => List.all_eq_true.mp hcs x hx)]
    rfl

theorem hexTokens_single (i : List Char) (hi : validSnapshotId i) :
    hexTokens i = [i] := by
  obtain ⟨h1, h2, h3⟩ := hi
  have hne : i ≠ [] := by
    intro h
    rw [h] at h2
    simp at h2
  have hword : i.all wordChar = true :=
    List.all_eq_true.mpr (fun x hx =>
      hexDigit_wordChar (List.all_eq_true.mp h1 x hx))
  unfold hexTokens
  rw [wordRuns_all_word i hne hword]
  have : isHexToken i = true := by
    unfold isHexToken
    rw [h1, decide_eq_true h2, decide_eq_true h3]
    rfl
  simp [List.filter, this]

/-!
## Splitting, replacing and path lemmas
-/

theorem splitTerms_no_sep : ∀ (d : List Char), hasTermsSep d = false →
    ∀ acc, splitTerms acc d = [acc.reverse ++ d] := by
  intro d
  induction d with
  | nil => intro _ acc; simp [splitTerms]
  | cons c t ih =>
    intro h acc
    cases t with
    | nil => simp [splitTerms]
    | cons c2 t2 =>
      unfold hasTermsSep at h
      rw [Bool.or_eq_false_iff] at h
      obtain ⟨h1, h2⟩ := h
      unfold splitTerms
      rw [h1]
      simp only [Bool.false_eq_true, if_false]
      rw [ih h2 (c :: acc)]
      simp

theorem splitTerms_sep (d : List Char) (hd : hasTermsSep d = false) :
    ∀ (t : List Char), hasTermsSep t = false →
    ∀ acc, splitTerms acc (t ++ ' ' :: '#' :: d) = [acc.reverse ++ t, d] := by
  intro t
  induction t with
  | nil =>
    intro _ acc
    show splitTerms acc (' ' :: '#' :: d) = _
    unfold splitTerms
    simp only [show ((' ' : Char) == ' ' && ('#' : Char) == '#') = true from rfl,
      if_pos rfl]
    rw [splitTerms_no_sep d hd []]
    simp
  | cons c t' ih =>
    intro h acc
    cases t' with
    | nil =>
      show splitTerms acc (c :: ' ' :: '#' :: d) = _
      unfold splitTerms
      simp only [show ((' ' : Char) == '#') = false from rfl, Bool.and_false,
        Bool.false_eq_true, if_false]
      have : splitTerms (c :: acc) (' ' :: '#' :: d) = [(c :: acc).reverse, d] := by
        unfold splitTerms
        simp only [show ((' ' : Char) == ' ' && ('#' : Char) == '#') = true from rfl,
          if_pos rfl]
        rw [splitTerms_no_sep d hd []]
        simp
      rw [this]
      simp
    | cons c2 t2 =>
      unfold hasTermsSep at h
      rw [Bool.or_eq_false_iff] at h
      obtain ⟨h1, h2⟩ := h
      show splitTerms acc (c :: c2 :: (t2 ++ ' ' :: '#' :: d)) = _
      unfold splitTerms
      rw [h1]
      simp only [Bool.false_eq_true, if_false]
      have hih := ih h2 (c :: acc)
      rw [List.cons_append] at hih
      rw [hih]
      simp

theorem isPrefixOf_append_self : ∀ (p x : List Char),
    p.isPrefixOf (p ++ x) = true := by
  intro p
  induction p with
  | nil => intro x; cases x <;> rfl
  | cons c cp ih =>
    intro x
    rw [List.cons_append]
    show (c == c && cp.isPrefixOf (cp ++ x)) = true
    rw [ih x]
    simp

theorem isSuffixOf_append_self (s t : List Char) :
    s.isSuffixOf (t ++ s) = true := by
  unfold List.isSuffixOf
  rw [List.reverse_append]
  exact isPrefixOf_append_self s.reverse t.reverse

theorem replaceFirst_cons (c : Char) (cs pat rep : List Char) :
    replaceFirst (c :: cs) pat rep
      = if pat.isPrefixOf (c :: cs) then rep ++ (c :: cs).drop pat.length
        else c :: replaceFirst cs pat rep := rfl

theorem replaceFirst_marker (pat : List Char) (hpat : pat.head? = some '%') :
    ∀ (tpre tpost rep : List Char), ('%' : Char) ∉ tpre →
      replaceFirst (tpre ++ (pat ++ tpost)) pat rep = tpre ++ (rep ++ tpost) := by
  intro tpre
  induction tpre with
  | nil =>
    intro tpost rep _
    cases pat with
    | nil => simp at hpat
    | cons pc pt =>
      simp only [List.nil_append]
      rw [List.cons_append, replaceFirst_cons]
      have hpre : ((pc :: pt).isPrefixOf (pc :: (pt ++ tpost))) = true := by
        rw [← List.cons_append]
        exact isPrefixOf_append_self (pc :: pt) tpost
      rw [hpre]
      simp only [if_true]
      rw [← List.cons_append, List.drop_left]
  | cons c ct ih =>
    intro tpost rep hmem
    have hc : c ≠ '%' := by
      intro hh
      exact hmem (by rw [hh]; exact List.mem_cons_self _ _)
    have hct : ('%' : Char) ∉ ct := fun hh => hmem (List.mem_cons_of_mem c hh)
    cases pat with
    | nil => simp at hpat
    | cons pc pt =>
      have hpc : pc = '%' := by
        simp [List.head?] at hpat
        exact hpat
      rw [List.cons_append, replaceFirst_cons]
      have hunf : ((pc :: pt).isPrefixOf (c :: (ct ++ (pc :: pt ++ tpost))))
          = (pc == c && pt.isPrefixOf (ct ++ (pc :: pt ++ tpost))) := rfl
      have hbeq : (pc == c) = false := by
        rw [hpc]
        cases hcc : (('%' : Char) == c) with
        | true => exact absurd (eq_of_beq hcc).symm hc
        | false => rfl
      rw [hunf, hbeq]
      simp only [Bool.false_and, Bool.false_eq_true, if_false]
      rw [ih tpost rep hct]
      rfl

theorem bodyAfterSubject_append : ∀ (a rest : List Char), ('\n' : Char) ∉ a →
    bodyAfterSubject (a ++ '\n' :: '\n' :: rest) = rest := by
  intro a
  induction a with
  | nil =>
    intro rest _
    show bodyAfterSubject ('\n' :: '\n' :: rest) = rest
    unfold bodyAfterSubject
    simp
  | cons c t ih =>
    intro rest hmem
    have hc : c ≠ '\n' := by
      intro hh
      exact hmem (by rw [hh]; exact List.mem_cons_self _ _)
    have hct : ('\n' : Char) ∉ t := fun hh => hmem (List.mem_cons_of_mem c hh)
    cases t with
    | nil =>
      show bodyAfterSubject (c :: '\n' :: '\n' :: rest) = rest
      unfold bodyAfterSubject
      have : (c == '\n' && ('\n' : Char) == '\n') = false := by
        cases hcc : (c == '\n') with
        | true => exact absurd (eq_of_beq hcc) hc
        | false => rfl
      rw [this]
      simp only [Bool.false_eq_true, if_false]
      unfold bodyAfterSubject
      simp
    | cons c2 t2 =>
      show bodyAfterSubject (c :: c2 :: (t2 ++ '\n' :: '\n' :: rest)) = rest
      unfold bodyAfterSubject
      have : (c == '\n' && c2 == '\n') = false := by
        cases hcc : (c == '\n') with
        | true => exact absurd (eq_of_beq hcc) hc
        | false => rfl
      rw [this]
      simp only [Bool.false_eq_true, if_false]
      exact ih rest hct

theorem contains_slash (sid fname : List Char) :
    (sid ++ '/' :: fname).contains '/' = true := by
  have hmem : ('/' : Char) ∈ sid ++ '/' :: fname :=
    List.mem_append_right sid (List.mem_cons_self _ _)
  exact List.elem_eq_true_of_mem hmem

theorem dirnameOf_append (sid fname : List Char) (hf : ('/' : Char) ∉ fname) :
    dirnameOf (sid ++ '/' :: fname) = sid := by
  unfold dirnameOf
  rw [if_pos (contains_slash sid fname)]
  rw [List.reverse_append, List.reverse_cons, List.append_assoc,
    List.singleton_append]
  have hall : fname.reverse.all (fun c => c != '/') = true :=
    List.all_eq_true.mpr (fun x hx => by
      have : x ≠ '/' := fun hh =>
        hf (by rw [← hh]; exact List.mem_reverse.mp hx)
      simp [this])
  rw [dropWhile_append_breakR (fun c => c != '/') ('/' :: sid.reverse)
    (by intro c hc; cases hc; simp) fname.reverse]
  rw [List.dropWhile_eq_nil_iff.mpr (fun x hx => List.all_eq_true.mp hall x hx)]
  simp

theorem baseNameOf_append (sid fname : List Char) (hf : ('/' : Char) ∉ fname) :
    baseNameOf (sid ++ '/' :: fname) = fname := by
  unfold baseNameOf
  rw [List.reverse_append, List.reverse_cons, List.append_assoc,
    List.singleton_append]
  have hall : ∀ x ∈ fname.reverse, (x != '/') = true := fun x hx => by
    have : x ≠ '/' := fun hh =>
      hf (by rw [← hh]; exact List.mem_reverse.mp hx)
    simp [this]
  rw [takeWhile_append_breakR (fun c => c != '/') ('/' :: sid.reverse)
    (by intro c hc; cases hc; simp) fname.reverse]
  rw [List.takeWhile_eq_self_iff.mpr hall, List.reverse_reverse]

theorem extnameOf_def (p : List Char) :
    extnameOf p
      = (if ((baseNameOf p).reverse.takeWhile (fun c => c != '.')).length
            = (baseNameOf p).length then []
         else if ((baseNameOf p).reverse.takeWhile (fun c => c != '.')).length + 1
            = (baseNameOf p).length then []
         else '.' :: ((baseNameOf p).reverse.takeWhile (fun c => c != '.')).reverse) :=
  rfl

theorem baseNameNoExt_def (p ext : List Char) :
    baseNameNoExt p ext
      = if ext != [] && ext.isSuffixOf (baseNameOf p)
            && decide (ext.length < (baseNameOf p).length)
        then (baseNameOf p).take ((baseNameOf p).length - ext.length)
        else baseNameOf p :=
  rfl

theorem extnameOf_shape (p T E : List Char) (hbase : baseNameOf p = T ++ '.' :: E)
    (hT : T ≠ []) (hEd : ('.' : Char) ∉ E) :
    extnameOf p = '.' :: E := by
  rw [extnameOf_def, hbase]
  rw [List.reverse_append, List.reverse_cons, List.append_assoc,
    List.singleton_append]
  have hall : ∀ x ∈ E.reverse, (x != '.') = true := fun x hx => by
    have : x ≠ '.' := fun hh =>
      hEd (by rw [← hh]; exact List.mem_reverse.mp hx)
    simp [this]
  rw [takeWhile_append_breakR (fun c => c != '.') ('.' :: T.reverse)
    (by intro c hc; cases hc; simp) E.reverse]
  rw [List.takeWhile_eq_self_iff.mpr hall]
  have hlen : E.reverse.length = E.length := List.length_reverse E
  have hlen2 : (T ++ '.' :: E).length = T.length + 1 + E.length := by
    rw [List.length_append, List.length_cons]
    omega
  have hTpos : 0 < T.length := List.length_pos.mpr hT
  rw [if_neg (by rw [hlen, hlen2]; omega), if_neg (by rw [hlen, hlen2]; omega),
    List.reverse_reverse]

theorem baseNameNoExt_shape (p T E : List Char)
    (hbase : baseNameOf p = T ++ '.' :: E) (hT : T ≠ []) :
    baseNameNoExt p ('.' :: E) = T := by
  rw [baseNameNoExt_def, hbase]
  have hTpos : 0 < T.length := List.length_pos.mpr hT
  have hlen2 : (T ++ '.' :: E).length = T.length + 1 + E.length := by
    rw [List.length_append, List.length_cons]
    omega
  have hcond : (('.' :: E) != [] && ('.' :: E).isSuffixOf (T ++ '.' :: E)
      && decide (('.' :: E).length < (T ++ '.' :: E).length)) = true := by
    rw [isSuffixOf_append_self ('.' :: E) T]
    have h1 : (('.' :: E) != ([] : List Char)) = true := rfl
    have h3 : decide (('.' :: E).length < (T ++ '.' :: E).length) = true := by
      rw [decide_eq_true_eq, List.length_cons, hlen2]
      omega
    rw [h1, h3]
    rfl
  rw [if_pos hcond]
  have harith : (T ++ '.' :: E).length - ('.' :: E).length = T.length := by
    rw [List.length_cons, hlen2]
    omega
  rw [harith, List.take_left]

theorem mimeGetType_shape (p E m : List Char) (hext : extnameOf p = '.' :: E)
    (hm : mimeTypeOfExtension E = some m) : mimeGetType p = some m := by
  unfold mimeGetType
  rw [hext]
  exact hm

/-!
## Recovering snapshot ids from the provenance block
-/

theorem lastBreak_of_eq {a : List Char} {x : Char} (hx : a.getLast? = some x)
    (hw : wordChar x = false) :
    ∀ c, a.getLast? = some c → wordChar c = false := by
  intro c hc
  rw [hx] at hc
  injection hc with hh
  subst hh
  exact hw

theorem headBreak_of_eq {a : List Char} {x : Char} (hx : a.head? = some x)
    (hw : wordChar x = false) :
    ∀ c, a.head? = some c → wordChar c = false := by
  intro c hc
  rw [hx] at hc
  injection hc with hh
  subst hh
  exact hw

theorem hexTokens_template (tpre tpost i : List Char)
    (ht : validTemplateParts tpre tpost) (hi : validSnapshotId i) :
    hexTokens (tpre ++ (i ++ tpost)) = [i] := by
  rw [hexTokens_append_of_getLast tpre (i ++ tpost) ht.2.2.2.1,
      hexTokens_append_of_head i tpost ht.2.2.2.2,
      hexTokens_single i hi, ht.2.2.1, ht.2.1]
  rfl

theorem hexTokens_line (tpre tpost i : List Char)
    (ht : validTemplateParts tpre tpost) (hi : validSnapshotId i) :
    hexTokens (str "- " ++ replaceFirst (tpre ++ (SNAPSHOT_ID_MARKER ++ tpost))
      SNAPSHOT_ID_MARKER i) = [i] := by
  rw [replaceFirst_marker SNAPSHOT_ID_MARKER rfl tpre tpost i ht.1]
  show hexTokens ('-' :: ' ' :: (tpre ++ (i ++ tpost))) = [i]
  rw [hexTokens_cons_nonword '-' _ rfl, hexTokens_cons_nonword ' ' _ rfl]
  exact hexTokens_template tpre tpost i ht hi

theorem joinSep_cons₂ (sep x y : List Char) (r : List (List Char)) :
    joinSep sep (x :: y :: r) = x ++ sep ++ joinSep sep (y :: r) := rfl

theorem hexTokens_append_getLast_char (a b : List Char) (x : Char)
    (hx : a.getLast? = some x) (hw : wordChar x = false) :
    hexTokens (a ++ b) = hexTokens a ++ hexTokens b :=
  hexTokens_append_of_getLast a b (lastBreak_of_eq hx hw)

theorem hexTokens_append_cons_nonword (a : List Char) (x : Char) (b : List Char)
    (hx : wordChar x = false) :
    hexTokens (a ++ x :: b) = hexTokens a ++ hexTokens (x :: b) :=
  hexTokens_append_of_head a (x :: b) (by
    intro c hc
    injection hc with hh
    subst hh
    exact hx)

theorem nl_append (l : List Char) : str "\n" ++ l = '\n' :: l := rfl

theorem hexTokens_snapLines (tpre tpost : List Char)
    (ht : validTemplateParts tpre tpost) :
    ∀ ids : List (List Char), (∀ i ∈ ids, validSnapshotId i) → ids ≠ [] →
      hexTokens (joinSep (str "\n") (ids.map (fun i =>
        str "- " ++ replaceFirst (tpre ++ (SNAPSHOT_ID_MARKER ++ tpost))
          SNAPSHOT_ID_MARKER i))) = ids := by
  intro ids
  induction ids with
  | nil => intro _ h; exact absurd rfl h
  | cons i rest ih =>
    intro hvalid _
    have hi : validSnapshotId i := hvalid i (List.mem_cons_self _ _)
    cases rest with
    | nil =>
      rw [List.map_singleton]
      show hexTokens (str "- " ++ replaceFirst
        (tpre ++ (SNAPSHOT_ID_MARKER ++ tpost)) SNAPSHOT_ID_MARKER i) = [i]
      exact hexTokens_line tpre tpost i ht hi
    | cons j rest2 =>
      rw [List.map_cons, List.map_cons, joinSep_cons₂]
      have hlast : ((str "- " ++ replaceFirst
          (tpre ++ (SNAPSHOT_ID_MARKER ++ tpost)) SNAPSHOT_ID_MARKER i)
            ++ str "\n").getLast? = some '\n' := by
        rw [List.getLast?_append_of_ne_nil _ (by decide)]
        rfl
      rw [hexTokens_append_getLast_char _ _ '\n' hlast rfl]
      have hrest := ih (fun x hx => hvalid x (List.mem_cons_of_mem i hx))
        (by simp)
      rw [List.map_cons] at hrest
      rw [hrest]
      rw [show (str "\n" : List Char) = '\n' :: [] from rfl,
        hexTokens_append_cons_nonword _ '\n' [] rfl,
        hexTokens_line tpre tpost i ht hi]
      rfl

theorem hexTokens_multiHeader (ns : List Char) (hns : hexTokens ns = []) :
    hexTokens (replaceFirst MULTIPLE_SNAPSHOT_HEADER (str "%NUMBER") ns) = [] := by
  have hdec : MULTIPLE_SNAPSHOT_HEADER
      = str "This version was recorded after an extraction and an assembling from the following snapshots from "
        ++ (str "%NUMBER" ++ str " source documents:") := rfl
  rw [hdec, replaceFirst_marker (str "%NUMBER") rfl _ _ ns (by decide)]
  rw [hexTokens_append_getLast_char
    (str "This version was recorded after an extraction and an assembling from the following snapshots from ")
    (ns ++ str " source documents:") ' ' rfl rfl]
  rw [show (str " source documents:" : List Char)
    = ' ' :: str "source documents:" from rfl]
  rw [hexTokens_append_cons_nonword ns ' ' (str "source documents:") rfl, hns]
  rfl

theorem hexTokens_docMsg (d : List Char) (hd : hexTokens d = []) :
    hexTokens (str "Document ID " ++ d ++ str "\n\n") = [] := by
  rw [List.append_assoc,
    hexTokens_append_getLast_char (str "Document ID ") (d ++ str "\n\n")
      ' ' rfl rfl,
    show (str "\n\n" : List Char) = '\n' :: ('\n' :: []) from rfl,
    hexTokens_append_cons_nonword d '\n' ('\n' :: []) rfl, hd]
  rfl

/-!
## Decoding an encoded record
-/

theorem knownMime_facts {m : List Char} (h : m ∈ knownMimeTypes) :
    ∃ E, mimeGetExtension m = some E ∧ mimeTypeOfExtension E = some m
      ∧ ('.' : Char) ∉ E ∧ ('/' : Char) ∉ E ∧ E ≠ [] := by
  simp [knownMimeTypes] at h
  rcases h with rfl | rfl | rfl | rfl
  · exact ⟨str "md", rfl, rfl, by decide, by decide, by decide⟩
  · exact ⟨str "html", rfl, rfl, by decide, by decide, by decide⟩
  · exact ⟨str "pdf", rfl, rfl, by decide, by decide, by decide⟩
  · exact ⟨str "txt", rfl, rfl, by decide, by decide, by decide⟩

theorem toPersistence_message (r : Record) (tpl : List Char) :
    (toPersistence r tpl).message
      = encodeSubject r ++ str "\n\n" ++ encodeDocMsg r ++ str "\n\n"
        ++ encodeSnapMsg r tpl := rfl

theorem decode_isFirstRecord (r : Record) (tpl : List Char) :
    (startTrackingTag.isPrefixOf (toPersistence r tpl).message
      || deprecatedStartTrackingTag.isPrefixOf (toPersistence r tpl).message)
      = r.isFirstRecord := by
  rw [toPersistence_message]
  unfold encodeSubject encodeTag
  cases hf : r.isFirstRecord <;> cases he : r.isExtractOnly <;> rfl

theorem decode_isExtractOnly (r : Record) (tpl : List Char)
    (hflags : ¬(r.isFirstRecord = true ∧ r.isExtractOnly = true)) :
    (extractOnlyTag.isPrefixOf (toPersistence r tpl).message
      || deprecatedRefilterTag.isPrefixOf (toPersistence r tpl).message)
      = r.isExtractOnly := by
  rw [toPersistence_message]
  unfold encodeSubject encodeTag
  cases hf : r.isFirstRecord <;> cases he : r.isExtractOnly
  · rfl
  · rfl
  · rfl
  · exact absurd ⟨hf, he⟩ hflags

theorem encodeSubject_nonl (r : Record) (h1 : ('\n' : Char) ∉ r.serviceId)
    (h2 : ('\n' : Char) ∉ r.termsType) : ('\n' : Char) ∉ encodeSubject r := by
  unfold encodeSubject encodeTag
  intro hmem
  simp only [List.mem_append] at hmem
  rcases hmem with ((((h | h) | h) | h) | h)
  · cases hf : r.isFirstRecord <;> cases he : r.isExtractOnly <;>
      rw [hf, he] at h <;> revert h <;> decide
  · revert h; decide
  · exact h1 h
  · revert h; decide
  · exact h2 h

theorem nlnl_append (l : List Char) :
    str "\n\n" ++ l = '\n' :: '\n' :: l := rfl

theorem encode_body (r : Record) (tpl : List Char)
    (h1 : ('\n' : Char) ∉ r.serviceId) (h2 : ('\n' : Char) ∉ r.termsType) :
    bodyAfterSubject (toPersistence r tpl).message
      = encodeDocMsg r ++ ('\n' :: '\n' :: encodeSnapMsg r tpl) := by
  rw [toPersistence_message]
  simp only [List.append_assoc]
  rw [nlnl_append, nlnl_append]
  exact bodyAfterSubject_append (encodeSubject r)
    (encodeDocMsg r ++ ('\n' :: '\n' :: encodeSnapMsg r tpl))
    (encodeSubject_nonl r h1 h2)

theorem hexTokens_body (D P : List Char) (hD : hexTokens D = []) :
    hexTokens (D ++ ('\n' :: '\n' :: P)) = hexTokens P := by
  rw [hexTokens_append_cons_nonword D '\n' ('\n' :: P) rfl, hD,
    hexTokens_cons_nonword '\n' _ rfl, hexTokens_cons_nonword '\n' _ rfl]
  rfl

theorem encodeDocMsg_tokens (r : Record)
    (hdoc : ∀ d, r.documentId = some d → hexTokens d = []) :
    hexTokens (encodeDocMsg r) = [] := by
  unfold encodeDocMsg
  cases hdid : r.documentId with
  | none => rfl
  | some d =>
    cases d with
    | nil => rfl
    | cons c cs =>
      rw [show truthyS (some (c :: cs)) = true from rfl]
      simp only [if_true, Option.getD_some]
      exact hexTokens_docMsg (c :: cs) (hdoc (c :: cs) hdid)

theorem encodeSnapMsg_tokens (r : Record) (tpre tpost : List Char)
    (ht : validTemplateParts tpre tpost)
    (hids : ∀ i ∈ r.snapshotIds, validSnapshotId i)
    (hlen : hexTokens (str (toString r.snapshotIds.length)) = []) :
    hexTokens (encodeSnapMsg r (tpre ++ (SNAPSHOT_ID_MARKER ++ tpost)))
      = r.snapshotIds := by
  unfold encodeSnapMsg
  rcases hS : r.snapshotIds with _ | ⟨i, _ | ⟨j, rest⟩⟩
  · rfl
  · rw [show (([i] : List (List Char)).length == 1) = true from rfl]
    simp only [if_true]
    rw [show ([i] : List (List Char)).headD [] = i from rfl]
    rw [hexTokens_append_getLast_char (SINGLE_SNAPSHOT_HEADER ++ str " ")
      (replaceFirst (tpre ++ (SNAPSHOT_ID_MARKER ++ tpost)) SNAPSHOT_ID_MARKER i)
      ' ' rfl rfl]
    rw [replaceFirst_marker SNAPSHOT_ID_MARKER rfl tpre tpost i ht.1]
    rw [hexTokens_template tpre tpost i ht (hids i (by rw [hS]; exact List.mem_cons_self _ _))]
    rw [show hexTokens (SINGLE_SNAPSHOT_HEADER ++ str " ") = [] by decide]
    rfl
  · rw [show ((i :: j :: rest : List (List Char)).length == 1) = false from rfl]
    simp only [Bool.false_eq_true, if_false]
    rw [if_pos (by simp : 1 < (i :: j :: rest : List (List Char)).length)]
    rw [hexTokens_append_cons_nonword
      (replaceFirst MULTIPLE_SNAPSHOT_HEADER (str "%NUMBER")
        (str (toString (i :: j :: rest : List (List Char)).length)))
      '\n'
      (joinSep (str "\n") ((i :: j :: rest).map (fun snapshotId =>
        str "- " ++ replaceFirst (tpre ++ (SNAPSHOT_ID_MARKER ++ tpost))
          SNAPSHOT_ID_MARKER snapshotId)))
      rfl]
    rw [hexTokens_multiHeader _ (by rw [← hS]; exact hlen)]
    rw [hexTokens_cons_nonword '\n' _ rfl]
    rw [hexTokens_snapLines tpre tpost ht (i :: j :: rest)
      (by rw [← hS]; exact hids) (by simp)]
    rfl

theorem toPersistence_filePath (r : Record) (tpl : List Char) :
    (toPersistence r tpl).filePath
      = r.serviceId ++ ('/' :: generateFileName r.termsType r.documentId
          ((r.mimeType.bind mimeGetExtension).getD (str "*"))) := rfl

theorem decode_path (r : Record) (tpl m E : List Char)
    (hm : r.mimeType = some m) (hE1 : mimeGetExtension m = some E)
    (hE2 : mimeTypeOfExtension E = some m)
    (hEdot : ('.' : Char) ∉ E) (hEsl : ('/' : Char) ∉ E)
    (httne : r.termsType ≠ []) (httsl : ('/' : Char) ∉ r.termsType)
    (_httdot : ('.' : Char) ∉ r.termsType)
    (httsep : hasTermsSep r.termsType = false)
    (hdoc : ∀ d, r.documentId = some d → d ≠ [] ∧ ('/' : Char) ∉ d
      ∧ ('.' : Char) ∉ d ∧ hasTermsSep d = false) :
    dirnameOf (toPersistence r tpl).filePath = r.serviceId
    ∧ (splitTerms [] (baseNameNoExt (toPersistence r tpl).filePath
        (extnameOf (toPersistence r tpl).filePath))).headD [] = r.termsType
    ∧ (splitTerms [] (baseNameNoExt (toPersistence r tpl).filePath
        (extnameOf (toPersistence r tpl).filePath)))[1]? = r.documentId
    ∧ mimeGetType (toPersistence r tpl).filePath = some m := by
  have hExtval : ((r.mimeType.bind mimeGetExtension).getD (str "*")) = E := by
    rw [hm]
    show (mimeGetExtension m).getD (str "*") = E
    rw [hE1]
    rfl
  rw [toPersistence_filePath, hExtval]
  rcases hdid : r.documentId with _ | d
  · have hfname : generateFileName r.termsType none E
        = r.termsType ++ ('.' :: E) := by
      rw [show generateFileName r.termsType none E
        = r.termsType ++ [] ++ ('.' :: E) from rfl, List.append_nil]
    rw [hfname]
    have hnsl : ('/' : Char) ∉ r.termsType ++ ('.' :: E) := by
      intro hmem
      rcases List.mem_append.mp hmem with h | h
      · exact httsl h
      · rcases List.mem_cons.mp h with h | h
        · exact absurd h (by decide)
        · exact hEsl h
    have hbase : baseNameOf (r.serviceId ++ ('/' :: (r.termsType ++ ('.' :: E))))
        = r.termsType ++ ('.' :: E) :=
      baseNameOf_append r.serviceId (r.termsType ++ ('.' :: E)) hnsl
    have hext := extnameOf_shape _ r.termsType E hbase httne hEdot
    have hnoext := baseNameNoExt_shape _ r.termsType E hbase httne
    rw [hext, hnoext, splitTerms_no_sep r.termsType httsep []]
    refine ⟨dirnameOf_append r.serviceId _ hnsl, by simp, by simp,
      mimeGetType_shape _ E m hext hE2⟩
  · obtain ⟨hdne, hdsl, hddot, hdsep⟩ := hdoc d hdid
    cases d with
    | nil => exact absurd rfl hdne
    | cons c cs =>
      have hfname : generateFileName r.termsType (some (c :: cs)) E
          = r.termsType ++ (' ' :: '#' :: c :: cs) ++ ('.' :: E) := rfl
      rw [hfname]
      have hnsl : ('/' : Char)
          ∉ r.termsType ++ (' ' :: '#' :: c :: cs) ++ ('.' :: E) := by
        intro hmem
        rcases List.mem_append.mp hmem with h | h
        · rcases List.mem_append.mp h with h | h
          · exact httsl h
          · rcases List.mem_cons.mp h with h | h
            · exact absurd h (by decide)
            · rcases List.mem_cons.mp h with h | h
              · exact absurd h (by decide)
              · exact hdsl h
        · rcases List.mem_cons.mp h with h | h
          · exact absurd h (by decide)
          · exact hEsl h
      have hTne : r.termsType ++ (' ' :: '#' :: c :: cs) ≠ [] := by
        intro hh
        rw [List.append_eq_nil] at hh
        exact absurd hh.2 (by simp)
      have hbase : baseNameOf (r.serviceId
            ++ ('/' :: (r.termsType ++ (' ' :: '#' :: c :: cs) ++ ('.' :: E))))
          = r.termsType ++ (' ' :: '#' :: c :: cs) ++ ('.' :: E) :=
        baseNameOf_append r.serviceId _ hnsl
      have hext := extnameOf_shape _ (r.termsType ++ (' ' :: '#' :: c :: cs)) E
        hbase hTne hEdot
      have hnoext := baseNameNoExt_shape _
        (r.termsType ++ (' ' :: '#' :: c :: cs)) E hbase hTne
      rw [hext, hnoext, splitTerms_sep (c :: cs) hdsep r.termsType httsep []]
      refine ⟨dirnameOf_append r.serviceId _ hnsl, by simp, by simp,
        mimeGetType_shape _ E m hext hE2⟩

/-- Claim C1 (amended): for every valid Record that is not simultaneously
marked first-record and extract-only, decoding the change-unit produced by
encoding it (the commit carrying the encoded message, its body, and the
encoded file path as the single modified file) reproduces `serviceId`,
`termsType`, `documentId`, `mimeType`, `isFirstRecord`, `isExtractOnly`,
and the snapshot ids exactly (in order, hence also as a set).  The
snapshot-identifier template is any text around a single `%SNAPSHOT_ID`
marker satisfying `validTemplateParts`. -/
theorem toDomain_toPersistence_roundtrip (r : Record)
    (tpre tpost hash : List Char) (date : Nat)
    (hr : ValidRecord r) (ht : validTemplateParts tpre tpost)
    (hflags : ¬(r.isFirstRecord = true ∧ r.isExtractOnly = true)) :
    ∃ rd, toDomain (commitOf hash date (toPersistence r
        (tpre ++ (SNAPSHOT_ID_MARKER ++ tpost)))) = .ok rd
      ∧ rd.serviceId = r.serviceId ∧ rd.termsType = r.termsType
      ∧ rd.documentId = r.documentId ∧ rd.mimeType = r.mimeType
      ∧ rd.isFirstRecord = r.isFirstRecord
      ∧ rd.isExtractOnly = r.isExtractOnly
      ∧ rd.snapshotIds = r.snapshotIds := by
  obtain ⟨hsidne, hsidsl, hsidnl, httne, httsl, httdot, httnl, httsep,
    hdocAll, ⟨m, hm, hmem⟩, hids, hlen⟩ := hr
  obtain ⟨E, hE1, hE2, hEdot, hEsl, hEne⟩ := knownMime_facts hmem
  have hdec : toDomain (commitOf hash date (toPersistence r
      (tpre ++ (SNAPSHOT_ID_MARKER ++ tpost))))
      = .ok { id := hash,
              serviceId := dirnameOf (toPersistence r
                (tpre ++ (SNAPSHOT_ID_MARKER ++ tpost))).filePath,
              termsType := (splitTerms [] (baseNameNoExt (toPersistence r
                (tpre ++ (SNAPSHOT_ID_MARKER ++ tpost))).filePath
                (extnameOf (toPersistence r
                  (tpre ++ (SNAPSHOT_ID_MARKER ++ tpost))).filePath))).headD [],
              documentId := (splitTerms [] (baseNameNoExt (toPersistence r
                (tpre ++ (SNAPSHOT_ID_MARKER ++ tpost))).filePath
                (extnameOf (toPersistence r
                  (tpre ++ (SNAPSHOT_ID_MARKER ++ tpost))).filePath)))[1]?,
              mimeType := mimeGetType (toPersistence r
                (tpre ++ (SNAPSHOT_ID_MARKER ++ tpost))).filePath,
              fetchDate := date,
              isFirstRecord := startTrackingTag.isPrefixOf (toPersistence r
                  (tpre ++ (SNAPSHOT_ID_MARKER ++ tpost))).message
                || deprecatedStartTrackingTag.isPrefixOf (toPersistence r
                  (tpre ++ (SNAPSHOT_ID_MARKER ++ tpost))).message,
              isExtractOnly := extractOnlyTag.isPrefixOf (toPersistence r
                  (tpre ++ (SNAPSHOT_ID_MARKER ++ tpost))).message
                || deprecatedRefilterTag.isPrefixOf (toPersistence r
                  (tpre ++ (SNAPSHOT_ID_MARKER ++ tpost))).message,
              snapshotIds := hexTokens (bodyAfterSubject (toPersistence r
                (tpre ++ (SNAPSHOT_ID_MARKER ++ tpost))).message) } := rfl
  obtain ⟨hserv, hterms, hdid, hmime⟩ := decode_path r
    (tpre ++ (SNAPSHOT_ID_MARKER ++ tpost)) m E hm hE1 hE2 hEdot hEsl
    httne httsl httdot httsep
    (fun d hd => ⟨(hdocAll d hd).1, (hdocAll d hd).2.1,
      (hdocAll d hd).2.2.1, (hdocAll d hd).2.2.2.1⟩)
  refine ⟨_, hdec, hserv, hterms, hdid, ?_,
    decode_isFirstRecord r (tpre ++ (SNAPSHOT_ID_MARKER ++ tpost)),
    decode_isExtractOnly r (tpre ++ (SNAPSHOT_ID_MARKER ++ tpost)) hflags, ?_⟩
  · show mimeGetType (toPersistence r
      (tpre ++ (SNAPSHOT_ID_MARKER ++ tpost))).filePath = r.mimeType
    rw [hmime, hm]
  · show hexTokens (bodyAfterSubject (toPersistence r
      (tpre ++ (SNAPSHOT_ID_MARKER ++ tpost))).message) = r.snapshotIds
    rw [encode_body r (tpre ++ (SNAPSHOT_ID_MARKER ++ tpost)) hsidnl httnl,
      hexTokens_body _ _ (encodeDocMsg_tokens r
        (fun d hd => (hdocAll d hd).2.2.2.2)),
      encodeSnapMsg_tokens r tpre tpost ht hids hlen]

/-- Claim C1 counterexample: a valid Record marked both first-record and
extract-only encodes under the first-record tag (dataMapper.js line 30), so
decoding returns `isExtractOnly = false` and the round trip does not
reproduce the extract-only flag. -/
theorem roundtrip_bothFlags_counterexample :
    ValidRecord recordBothFlags
    ∧ recordBothFlags.isExtractOnly = true
    ∧ (toDomain (commitOf (str "deadbeef01") 7 (toPersistence recordBothFlags
        (tplPre ++ (SNAPSHOT_ID_MARKER ++ tplPost))))).map
          (fun rd => rd.isExtractOnly)
      = .ok false := by
  refine ⟨⟨by decide, by decide, by decide, by decide, by decide, by decide,
    by decide, by decide, fun d hd => Option.noConfusion hd,
    ⟨str "text/markdown", rfl, by decide⟩, by decide, by decide⟩, rfl, ?_⟩
  rfl

theorem roundtrip_recordGood_valid : ValidRecord recordGood := by
  refine ⟨by decide, by decide, by decide, by decide, by decide, by decide,
    by decide, by decide, ?_, ⟨str "text/markdown", rfl, by decide⟩,
    by decide, by decide⟩
  intro d hd
  rw [show recordGood.documentId = some (str "community") from rfl] at hd
  injection hd with h
  rw [← h]
  exact ⟨by decide, by decide, by decide, by decide, by decide⟩

theorem roundtrip_templateParts_valid : validTemplateParts tplPre tplPost :=
  ⟨by decide, by decide, by decide, lastBreak_of_eq rfl rfl,
    headBreak_of_eq rfl rfl⟩

theorem toDomain_toPersistence_roundtrip_witness :
    ∃ rd, toDomain (commitOf (str "deadbeef01") 7 (toPersistence recordGood
        (tplPre ++ (SNAPSHOT_ID_MARKER ++ tplPost)))) = .ok rd
      ∧ rd.serviceId = recordGood.serviceId
      ∧ rd.termsType = recordGood.termsType
      ∧ rd.documentId = recordGood.documentId
      ∧ rd.mimeType = recordGood.mimeType
      ∧ rd.isFirstRecord = recordGood.isFirstRecord
      ∧ rd.isExtractOnly = recordGood.isExtractOnly
      ∧ rd.snapshotIds = recordGood.snapshotIds :=
  toDomain_toPersistence_roundtrip recordGood tplPre tplPost
    (str "deadbeef01") 7 roundtrip_recordGood_valid
    roundtrip_templateParts_valid (by decide)
